import Mathlib

/-!
Verification of the excel-report-generator repository core logic.

The Python source under study consists of:
  - app.py                  (file sniffing and CSV loading)
  - reports/participation.py
  - reports/performance.py
  - reports/parul_weekly.py

This file shallowly embeds the pure decision logic of those modules:
cell classification, header-column resolution, pivot construction and
the encoding/delimiter fallback ladder of the CSV loader.  Machine
floats are modelled by rationals: every comparison the code performs
happens at values (25, 50, 75, 0.25, 0.5, 0.75, 100) that are exact in
binary floating point, so the rational model agrees with the float
semantics on all categorisation decisions.
-/

/-! ## Generic string and list helpers (Python primitives) -/

/-- Membership test of a needle list inside a haystack list, scanning left
to right exactly like the Python substring operator on short strings. -/
def listContainsSub [BEq α] (needle : List α) : List α → Bool
  | [] => needle.isEmpty
  | a :: rest => (needle.isPrefixOf (a :: rest)) || listContainsSub needle rest

/-- Python substring test: the first string occurs inside the second. -/
def pyIn (sub hay : String) : Bool := listContainsSub sub.toList hay.toList

/-- Python str.strip(): remove leading and trailing whitespace.  Defined
on the character list so that the kernel can evaluate it. -/
def pyStrip (s : String) : String :=
  ((s.toList.dropWhile Char.isWhitespace).reverse.dropWhile Char.isWhitespace).reverse.asString

/-- ASCII uppercase of one character. -/
def pyUpperChar (c : Char) : Char :=
  if 'a' ≤ c ∧ c ≤ 'z' then Char.ofNat (c.toNat - 32) else c

/-- ASCII lowercase of one character. -/
def pyLowerChar (c : Char) : Char :=
  if 'A' ≤ c ∧ c ≤ 'Z' then Char.ofNat (c.toNat + 32) else c

/-- Python str.upper() on ASCII text. -/
def pyUpper (s : String) : String := (s.toList.map pyUpperChar).asString

/-- Python str.lower() on ASCII text. -/
def pyLower (s : String) : String := (s.toList.map pyLowerChar).asString

/-- Python str.endswith on character lists. -/
def pyEndsWith (s suffixStr : String) : Bool :=
  suffixStr.toList.isSuffixOf s.toList

/-- Python str.rstrip(): remove trailing whitespace only. -/
def pyRStrip (s : String) : String :=
  (s.toList.reverse.dropWhile Char.isWhitespace).reverse.asString

/-- Python slice s[:-n] for nonnegative n: for n = 0 Python yields the
empty string, otherwise the string without its last n characters. -/
def pyDropLast (s : String) (n : Nat) : String :=
  if n = 0 then "" else (s.toList.take (s.toList.length - n)).asString

/-- Removal of every percent sign, modelling the Python replace of the
percent character by the empty string. -/
def removePct (s : String) : String := (s.toList.filter (fun c => c ≠ '%')).asString

/-- Numeric value of a digit list, most significant digit first. -/
def digitsVal (ds : List Char) : Nat := ds.foldl (fun a c => a * 10 + (c.toNat - 48)) 0

/-- Decimal literal recogniser used by the model of Python float():
digits with an optional single decimal point, at least one digit. -/
def parseDecimal (cs : List Char) : Option ℚ :=
  let ip := cs.takeWhile Char.isDigit
  let rest := cs.dropWhile Char.isDigit
  match rest with
  | [] => if ip.isEmpty then none else some (mkRat (digitsVal ip) 1)
  | '.' :: rest2 =>
      let fp := rest2.takeWhile Char.isDigit
      let rest3 := rest2.dropWhile Char.isDigit
      if rest3.isEmpty && !(ip.isEmpty && fp.isEmpty) then
        some (mkRat (digitsVal ip * 10 ^ fp.length + digitsVal fp) (10 ^ fp.length))
      else none
  | _ => none

/-- Model of Python float() on finite plain decimal literals: leading and
trailing whitespace is ignored, an optional sign precedes the digits.
Exponent notation, digit underscores and the inf and nan spellings are
outside the model; on those the model reports a parse failure. -/
def pyFloat (s : String) : Option ℚ :=
  match (pyStrip s).toList with
  | '-' :: rest => (parseDecimal rest).map (fun q => -q)
  | '+' :: rest => parseDecimal rest
  | cs => parseDecimal cs

/-! ## Cell values

A loaded table cell is null (None or NaN), a finite number, or a string.
Python str() of a finite float round-trips through float(), is never
empty and never one of the sentinel words, so the numeric branch of each
classifier below applies the comparison chain to the number directly. -/

inductive Cell where
  | null
  | num (q : ℚ)
  | str (s : String)
deriving DecidableEq

/-! ## Classification engine, performance-report flavor
(reports/performance.py, function categorising a percentage cell) -/

def perfSentinels : List String := ["NA", "N/A", "-", "NULL", "NONE"]

/-- Comparison chain of the performance-report categoriser (the source
conditions are the strict comparisons num_value over 75, 50, 25 in that
order; they are written here with the smaller operand first). -/
def perfChain (q : ℚ) : String :=
  if 75 < q then "Good"
  else if 50 < q then "Satisfactory"
  else if 25 < q then "Need Attention"
  else "Intervention"

/-- Embedding of performance.py categorize function: sentinel handling,
percent stripping, float conversion, then the comparison chain. -/
def categorize_performance : Cell → String
  | .null => "Not Attended"
  | .num q => perfChain q
  | .str s =>
      let vs := pyStrip s
      if vs == "" || perfSentinels.contains (pyUpper vs) then "Not Attended"
      else
        match pyFloat (pyStrip (removePct vs)) with
        | some q => perfChain q
        | none => "Not Attended"

/-- Tier map written from the words of claim C1, with each tier stated as
an explicit interval condition rather than a first-match chain. -/
def perfTierClaim (q : ℚ) : String :=
  if 75 < q then "Good"
  else if 50 < q ∧ q ≤ 75 then "Satisfactory"
  else if 25 < q ∧ q ≤ 50 then "Need Attention"
  else "Intervention"

/-- Cell classifier written from the words of claim C1: sentinels and
unparseable strings give Not Attended, numbers go through the interval
tier map. -/
def perfCategoryClaim : Cell → String
  | .null => "Not Attended"
  | .num q => perfTierClaim q
  | .str s =>
      let vs := pyStrip s
      if vs == "" || perfSentinels.contains (pyUpper vs) then "Not Attended"
      else
        match pyFloat (pyStrip (removePct vs)) with
        | some q => perfTierClaim q
        | none => "Not Attended"

/-! ## Classification engine, weekly-report flavor
(reports/parul_weekly.py, function categorising a percentage cell) -/

/-- Ladder of inclusive thresholds applied by the weekly categoriser to
the normalised score (the source comparisons are score at least 0.75,
0.50, 0.25, 0; they are written here with the smaller operand first). -/
def weeklyTiers (score : ℚ) : String :=
  if 3/4 ≤ score then "Good (75%+)"
  else if 1/2 ≤ score then "Satisfactory (50% - 75%)"
  else if 1/4 ≤ score then "Needs Attention (25% - 50%)"
  else if 0 ≤ score then "Intervention (0% - 25%)"
  else "Invalid Score"

/-- Comparison chain of the weekly categoriser, including the divide by
100 normalisation of values above 1. -/
def weeklyChain (q : ℚ) : String :=
  weeklyTiers (if 1 < q then q / 100 else q)

/-- Embedding of the weekly categoriser: note the source strips percent
signs from the trimmed string BEFORE comparing against the empty string
and the dash sentinel. -/
def categorize_performance_weekly : Cell → String
  | .null => "Not Started"
  | .num q => weeklyChain q
  | .str s =>
      let vs := removePct (pyStrip s)
      if vs == "" || vs == "-" then "Not Started"
      else
        match pyFloat vs with
        | some q => weeklyChain q
        | none => "Invalid Score"

/-- Interval form of the weekly tier ladder, written from the words of
claim C2. -/
def weeklyTiersClaim (score : ℚ) : String :=
  if 3/4 ≤ score then "Good (75%+)"
  else if 1/2 ≤ score ∧ score < 3/4 then "Satisfactory (50% - 75%)"
  else if 1/4 ≤ score ∧ score < 1/2 then "Needs Attention (25% - 50%)"
  else if 0 ≤ score ∧ score < 1/4 then "Intervention (0% - 25%)"
  else "Invalid Score"

/-- Tier map written from the words of claim C2, with explicit interval
conditions. -/
def weeklyTierClaim (q : ℚ) : String :=
  weeklyTiersClaim (if 1 < q then q / 100 else q)

/-- Weekly classifier written from the words of claim C2 exactly as
stated: the empty and dash check happens BEFORE percent stripping. -/
def weeklyCategoryClaim : Cell → String
  | .null => "Not Started"
  | .num q => weeklyTierClaim q
  | .str s =>
      let vs := pyStrip s
      if vs == "" || vs == "-" then "Not Started"
      else
        match pyFloat (removePct vs) with
        | some q => weeklyTierClaim q
        | none => "Invalid Score"

/-- Weekly classifier amended to the source order: percent stripping
precedes the empty and dash check, everything else as claim C2 says. -/
def weeklyCategoryAmended : Cell → String
  | .null => "Not Started"
  | .num q => weeklyTierClaim q
  | .str s =>
      let vs := removePct (pyStrip s)
      if vs == "" || vs == "-" then "Not Started"
      else
        match pyFloat vs with
        | some q => weeklyTierClaim q
        | none => "Invalid Score"

lemma perfChain_eq_claim (q : ℚ) : perfChain q = perfTierClaim q := by
  rcases lt_or_le 75 q with h1 | h1
  · have hl : perfChain q = "Good" := by unfold perfChain; rw [if_pos h1]
    have hr : perfTierClaim q = "Good" := by unfold perfTierClaim; rw [if_pos h1]
    rw [hl, hr]
  · have h1n : ¬ 75 < q := not_lt.mpr h1
    rcases lt_or_le 50 q with h2 | h2
    · have hl : perfChain q = "Satisfactory" := by
        unfold perfChain; rw [if_neg h1n, if_pos h2]
      have hr : perfTierClaim q = "Satisfactory" := by
        unfold perfTierClaim; rw [if_neg h1n, if_pos ⟨h2, h1⟩]
      rw [hl, hr]
    · have h2n : ¬ 50 < q := not_lt.mpr h2
      have hB : ¬ (50 < q ∧ q ≤ 75) := fun hc => h2n hc.1
      rcases lt_or_le 25 q with h3 | h3
      · have hl : perfChain q = "Need Attention" := by
          unfold perfChain; rw [if_neg h1n, if_neg h2n, if_pos h3]
        have hr : perfTierClaim q = "Need Attention" := by
          unfold perfTierClaim; rw [if_neg h1n, if_neg hB, if_pos ⟨h3, h2⟩]
        rw [hl, hr]
      · have h3n : ¬ 25 < q := not_lt.mpr h3
        have hC : ¬ (25 < q ∧ q ≤ 50) := fun hc => h3n hc.1
        have hl : perfChain q = "Intervention" := by
          unfold perfChain; rw [if_neg h1n, if_neg h2n, if_neg h3n]
        have hr : perfTierClaim q = "Intervention" := by
          unfold perfTierClaim; rw [if_neg h1n, if_neg hB, if_neg hC]
        rw [hl, hr]

lemma weeklyTiers_eq_claim (x : ℚ) : weeklyTiers x = weeklyTiersClaim x := by
  rcases le_or_lt (3/4) x with h1 | h1
  · have hl : weeklyTiers x = "Good (75%+)" := by unfold weeklyTiers; rw [if_pos h1]
    have hr : weeklyTiersClaim x = "Good (75%+)" := by
      unfold weeklyTiersClaim; rw [if_pos h1]
    rw [hl, hr]
  · have h1n : ¬ (3/4 : ℚ) ≤ x := not_le.mpr h1
    rcases le_or_lt (1/2) x with h2 | h2
    · have hl : weeklyTiers x = "Satisfactory (50% - 75%)" := by
        unfold weeklyTiers; rw [if_neg h1n, if_pos h2]
      have hr : weeklyTiersClaim x = "Satisfactory (50% - 75%)" := by
        unfold weeklyTiersClaim; rw [if_neg h1n, if_pos ⟨h2, h1⟩]
      rw [hl, hr]
    · have h2n : ¬ (1/2 : ℚ) ≤ x := not_le.mpr h2
      have hB : ¬ ((1/2 : ℚ) ≤ x ∧ x < 3/4) := fun hc => h2n hc.1
      rcases le_or_lt (1/4) x with h3 | h3
      · have hl : weeklyTiers x = "Needs Attention (25% - 50%)" := by
          unfold weeklyTiers; rw [if_neg h1n, if_neg h2n, if_pos h3]
        have hr : weeklyTiersClaim x = "Needs Attention (25% - 50%)" := by
          unfold weeklyTiersClaim; rw [if_neg h1n, if_neg hB, if_pos ⟨h3, h2⟩]
        rw [hl, hr]
      · have h3n : ¬ (1/4 : ℚ) ≤ x := not_le.mpr h3
        have hC : ¬ ((1/4 : ℚ) ≤ x ∧ x < 1/2) := fun hc => h3n hc.1
        rcases le_or_lt 0 x with h4 | h4
        · have hl : weeklyTiers x = "Intervention (0% - 25%)" := by
            unfold weeklyTiers; rw [if_neg h1n, if_neg h2n, if_neg h3n, if_pos h4]
          have hr : weeklyTiersClaim x = "Intervention (0% - 25%)" := by
            unfold weeklyTiersClaim; rw [if_neg h1n, if_neg hB, if_neg hC, if_pos ⟨h4, h3⟩]
          rw [hl, hr]
        · have h4n : ¬ (0 : ℚ) ≤ x := not_le.mpr h4
          have hD : ¬ ((0 : ℚ) ≤ x ∧ x < 1/4) := fun hc => h4n hc.1
          have hl : weeklyTiers x = "Invalid Score" := by
            unfold weeklyTiers; rw [if_neg h1n, if_neg h2n, if_neg h3n, if_neg h4n]
          have hr : weeklyTiersClaim x = "Invalid Score" := by
            unfold weeklyTiersClaim; rw [if_neg h1n, if_neg hB, if_neg hC, if_neg hD]
          rw [hl, hr]

lemma weeklyChain_eq_claim (q : ℚ) : weeklyChain q = weeklyTierClaim q := by
  unfold weeklyChain weeklyTierClaim
  exact weeklyTiers_eq_claim _

/-- C1: the performance-report categorisation function maps sentinels and
unparseable strings to Not Attended and parsed numbers through strict
thresholds 75, 50, 25; boundary inputs land on the lower tier, as the
listed concrete cases exhibit. -/
theorem C1_performance_categorization :
    (∀ v : Cell, categorize_performance v = perfCategoryClaim v)
    ∧ categorize_performance .null = "Not Attended"
    ∧ categorize_performance (.str "") = "Not Attended"
    ∧ categorize_performance (.str "-") = "Not Attended"
    ∧ categorize_performance (.str "NA") = "Not Attended"
    ∧ categorize_performance (.str "n/a") = "Not Attended"
    ∧ categorize_performance (.num 80) = "Good"
    ∧ categorize_performance (.str "80%") = "Good"
    ∧ categorize_performance (.num 75) = "Satisfactory"
    ∧ categorize_performance (.num (mkRat 500001 10000)) = "Satisfactory"
    ∧ categorize_performance (.num 50) = "Need Attention"
    ∧ categorize_performance (.num 25) = "Intervention"
    ∧ categorize_performance (.num 0) = "Intervention"
    ∧ categorize_performance (.num (-5)) = "Intervention"
    ∧ categorize_performance (.str "abc") = "Not Attended" := by
  refine ⟨?_, ?_, ?_, ?_, ?_, ?_, ?_, ?_, ?_, ?_, ?_, ?_, ?_, ?_, ?_⟩
  · intro v
    cases v with
    | null => rfl
    | num q => exact perfChain_eq_claim q
    | str s =>
        simp only [categorize_performance, perfCategoryClaim]
        split
        · rfl
        · cases pyFloat (pyStrip (removePct (pyStrip s))) with
          | none => rfl
          | some q => exact perfChain_eq_claim q
  all_goals decide

/-- C2 counterexample: on the input consisting of a single percent sign
the weekly categoriser returns Not Started, while the claim (which has
the empty check happen before percent stripping) demands Invalid Score. -/
theorem C2_weekly_counterexample :
    categorize_performance_weekly (.str "%") = "Not Started"
    ∧ weeklyCategoryClaim (.str "%") = "Invalid Score"
    ∧ ("Not Started" : String) ≠ "Invalid Score" := by
  refine ⟨by decide, by decide, by decide⟩

/-- C2 amended: the weekly categoriser strips percent signs from the
trimmed value first, maps the then-empty or dash value to Not Started,
parse failures to Invalid Score, divides parsed values above 1 by 100,
and applies inclusive thresholds 0.75, 0.50, 0.25, 0 with negative
scores giving Invalid Score. -/
theorem C2_weekly_categorization_amended :
    ∀ v : Cell, categorize_performance_weekly v = weeklyCategoryAmended v := by
  intro v
  cases v with
  | null => rfl
  | num q => exact weeklyChain_eq_claim q
  | str s =>
      simp only [categorize_performance_weekly, weeklyCategoryAmended]
      split
      · rfl
      · cases pyFloat (removePct (pyStrip s)) with
        | none => rfl
        | some q => exact weeklyChain_eq_claim q

/-! ## Substring facts -/

lemma listContainsSub_iff [BEq α] [LawfulBEq α] (n : List α) :
    ∀ l : List α, listContainsSub n l = true ↔ n <:+: l := by
  intro l
  induction l with
  | nil =>
      simp [listContainsSub, List.isEmpty_iff, List.infix_nil]
  | cons a rest ih =>
      simp [listContainsSub, ih, List.infix_cons_iff]

lemma pyIn_iff (sub hay : String) : pyIn sub hay = true ↔ sub.toList <:+: hay.toList := by
  unfold pyIn
  exact listContainsSub_iff _ _

/-- Transfer of the Python substring test along a sub-phrase: if the hay
contains a phrase, it contains every infix of the phrase. -/
lemma pyIn_of_infixFact {s t hay : String} (hst : s.toList <:+: t.toList)
    (h : pyIn t hay = true) : pyIn s hay = true := by
  rw [pyIn_iff] at h ⊢
  exact hst.trans h

/-! ## Column resolution: Test Status (claim C5)

performance.py scans headers with a break at the first cell whose
lowercase form contains the phrase, or both keywords; participation.py
keeps assigning without break, so the LAST cell containing the lone
keyword wins.  parul_weekly.py uses the all-keywords helper. -/

def perfStatusCond (col : String) : Bool :=
  pyIn "test status" (pyLower col) || (pyIn "status" (pyLower col) && pyIn "test" (pyLower col))

def performanceStatusCol (cols : List String) : Option String := cols.find? perfStatusCond

def firstIdxFrom (p : String → Bool) : List String → Nat → Option Nat
  | [], _ => none
  | c :: rest, i => if p c then some i else firstIdxFrom p rest (i + 1)

/-- Index of the Test Status column located by performance.py. -/
def performanceStatusIdx (cols : List String) : Option Nat := firstIdxFrom perfStatusCond cols 0

def tpCond (col : String) : Bool := pyIn "total percentage" (pyLower col)

/-- performance.py looks for the percentage column only at indexes
strictly beyond the Test Status index. -/
def performancePctIdx (cols : List String) : Option Nat :=
  match performanceStatusIdx cols with
  | none => none
  | some s => (firstIdxFrom tpCond (cols.drop (s + 1)) 0).map (fun i => i + (s + 1))

def participationStatusCond (col : String) : Bool :=
  pyIn "test status" (pyLower col) || pyIn "status" (pyLower col)

/-- participation.py loops over all headers assigning on every match
without break, hence the final assignment is the last match. -/
def participationStatusCol (cols : List String) : Option String :=
  cols.foldl (fun acc col => if participationStatusCond col then some col else acc) none

/-- parul_weekly.py helper: first column whose lowercase name contains
all keywords, none giving a resolution error. -/
def get_column (cols kws : List String) : Option String :=
  cols.find? (fun col => kws.all (fun k => pyIn k (pyLower col)))

/-- Resolution rule written from the words of claim C5: the first header
cell containing both keywords wins; a cell containing only the lone
keyword is accepted only when no cell contains the phrase. -/
def testStatusClaimSpec (cols : List String) : Option String :=
  match cols.find? (fun col => pyIn "test" (pyLower col) && pyIn "status" (pyLower col)) with
  | some col => some col
  | none =>
      if cols.any (fun col => pyIn "test status" (pyLower col)) then none
      else cols.find? (fun col => pyIn "status" (pyLower col))

lemma test_infix_phrase : ("test".toList : List Char) <:+: "test status".toList :=
  ⟨[], " status".toList, by decide⟩

lemma status_infix_phrase : ("status".toList : List Char) <:+: "test status".toList :=
  ⟨"test ".toList, [], by decide⟩

lemma perfStatusCond_eq (col : String) :
    perfStatusCond col = (pyIn "test" (pyLower col) && pyIn "status" (pyLower col)) := by
  unfold perfStatusCond
  cases hts : pyIn "test status" (pyLower col) with
  | false => simp [Bool.and_comm]
  | true =>
      have h1 : pyIn "test" (pyLower col) = true := pyIn_of_infixFact test_infix_phrase hts
      have h2 : pyIn "status" (pyLower col) = true := pyIn_of_infixFact status_infix_phrase hts
      simp [h1, h2]

lemma participationStatusCond_eq (col : String) :
    participationStatusCond col = pyIn "status" (pyLower col) := by
  unfold participationStatusCond
  cases hts : pyIn "test status" (pyLower col) with
  | false => simp
  | true => simp [pyIn_of_infixFact status_infix_phrase hts]

lemma find?_congr_pointwise {p q : α → Bool} (h : ∀ a, p a = q a) :
    ∀ l : List α, l.find? p = l.find? q
  | [] => rfl
  | a :: l => by
      rw [List.find?_cons, List.find?_cons, h a, find?_congr_pointwise h l]

lemma foldl_overwrite (p : String → Bool) :
    ∀ (l : List String) (init : Option String),
      l.foldl (fun acc col => if p col then some col else acc) init
        = (l.reverse.find? p).or init := by
  intro l
  induction l with
  | nil => intro init; simp
  | cons a rest ih =>
      intro init
      rw [List.foldl_cons, List.reverse_cons, List.find?_append, ih]
      cases hf : rest.reverse.find? p with
      | some c => simp
      | none =>
          cases hp : p a with
          | true => simp [hp]
          | false => simp [hp]

/-- C5 counterexample: with headers Test Status and Upload Status the
participation report resolves the status column to Upload Status (last
cell containing the lone keyword), while the claimed rule resolves to
Test Status (first cell containing both keywords). -/
theorem C5_status_resolution_counterexample :
    participationStatusCol ["Test Status", "Upload Status"] = some "Upload Status"
    ∧ testStatusClaimSpec ["Test Status", "Upload Status"] = some "Test Status"
    ∧ (some "Upload Status" : Option String) ≠ some "Test Status" :=
  ⟨by decide, by decide, by decide⟩

/-- C5 amended: in the performance report and in the weekly report the
Test Status role resolves to the first header cell containing both the
keyword test and the keyword status; in the participation report it
resolves to the LAST header cell containing the keyword status, with the
keyword test not required. -/
theorem C5_status_resolution_amended :
    (∀ cols : List String,
      performanceStatusCol cols
        = cols.find? (fun col => pyIn "test" (pyLower col) && pyIn "status" (pyLower col)))
    ∧ (∀ cols : List String,
      get_column cols ["test", "status"]
        = cols.find? (fun col => pyIn "test" (pyLower col) && pyIn "status" (pyLower col)))
    ∧ (∀ cols : List String,
      participationStatusCol cols
        = cols.reverse.find? (fun col => pyIn "status" (pyLower col))) := by
  refine ⟨?_, ?_, ?_⟩
  · intro cols
    exact find?_congr_pointwise perfStatusCond_eq cols
  · intro cols
    refine find?_congr_pointwise (fun col => ?_) cols
    simp [List.all]
  · intro cols
    unfold participationStatusCol
    have h1 : ∀ acc col,
        (if participationStatusCond col then some col else acc)
          = (if pyIn "status" (pyLower col) then some col else acc) := by
      intro acc col
      rw [participationStatusCond_eq]
    simp only [h1]
    rw [foldl_overwrite]
    exact Option.or_none

/-! ## Index search facts (claim C10) -/

lemma firstIdxFrom_shift (p : String → Bool) :
    ∀ (l : List String) (i : Nat),
      firstIdxFrom p l i = (firstIdxFrom p l 0).map (fun k => k + i) := by
  intro l
  induction l with
  | nil => intro i; rfl
  | cons c rest ih =>
      intro i
      show (if p c then some i else firstIdxFrom p rest (i + 1))
        = (if p c then some 0 else firstIdxFrom p rest (0 + 1)).map (fun k => k + i)
      cases hp : p c with
      | true => simp [hp]
      | false =>
          simp only [hp, Bool.false_eq_true, if_false]
          rw [ih (i + 1), ih (0 + 1), Option.map_map]
          congr 1
          funext k
          simp only [Function.comp_apply]
          omega

lemma firstIdxFrom_zero_some (p : String → Bool) :
    ∀ (l : List String) (k : Nat), firstIdxFrom p l 0 = some k →
      k < l.length ∧ p (l.getD k "") = true ∧ ∀ j, j < k → p (l.getD j "") = false := by
  intro l
  induction l with
  | nil => intro k h; exact absurd h (by simp [firstIdxFrom])
  | cons c rest ih =>
      intro k h
      have hshow : firstIdxFrom p (c :: rest) 0
          = if p c then some 0 else firstIdxFrom p rest 1 := rfl
      rw [hshow] at h
      cases hp : p c with
      | true =>
          rw [if_pos hp] at h
          have hk : k = 0 := by simpa using h.symm
          subst hk
          exact ⟨by simp, by simpa using hp, fun j hj => absurd hj (by omega)⟩
      | false =>
          rw [if_neg (by simp [hp])] at h
          rw [firstIdxFrom_shift p rest 1, Option.map_eq_some'] at h
          obtain ⟨k0, hbase, hk⟩ := h
          obtain ⟨hlen, hcp, hmin⟩ := ih k0 hbase
          subst hk
          refine ⟨by simpa using Nat.succ_lt_succ hlen, by simpa using hcp, ?_⟩
          intro j hj
          cases j with
          | zero => simpa using hp
          | succ j0 =>
              have : j0 < k0 := by omega
              simpa using hmin j0 this

lemma firstIdxFrom_zero_none (p : String → Bool) :
    ∀ l : List String,
      firstIdxFrom p l 0 = none ↔ ∀ j, j < l.length → p (l.getD j "") = false := by
  intro l
  induction l with
  | nil => simp [firstIdxFrom]
  | cons c rest ih =>
      have hshow : firstIdxFrom p (c :: rest) 0
          = if p c then some 0 else firstIdxFrom p rest 1 := rfl
      rw [hshow]
      cases hp : p c with
      | true =>
          rw [if_pos rfl]
          constructor
          · intro h; exact absurd h (by simp)
          · intro h; exact absurd (h 0 (by simp)) (by simp [hp])
      | false =>
          rw [if_neg (by simp)]
          rw [firstIdxFrom_shift p rest 1, Option.map_eq_none', ih]
          constructor
          · intro h j hj
            cases j with
            | zero => simpa using hp
            | succ j0 =>
                have : j0 < rest.length := by simpa using Nat.lt_of_succ_lt_succ hj
                simpa using h j0 this
          · intro h j hj
            have := h (j + 1) (by simpa using Nat.succ_lt_succ hj)
            simpa using this

lemma drop_getD (l : List String) (n m : Nat) (d : String) :
    (l.drop n).getD m d = l.getD (n + m) d := by
  simp [List.getD_eq_getElem?_getD, List.getElem?_drop]

/-- C10: the performance report percentage column is the first column
strictly after the Test Status column whose lowercase name contains the
phrase total percentage; when no column after the Test Status column
matches, the resolution yields none (an error in the source) regardless
of matches at or before the Test Status index. -/
theorem C10_percentage_resolution (cols : List String) (s : Nat)
    (hs : performanceStatusIdx cols = some s) :
    (∀ i, performancePctIdx cols = some i →
        s < i ∧ i < cols.length ∧ tpCond (cols.getD i "") = true
          ∧ ∀ j, s < j → j < i → tpCond (cols.getD j "") = false)
    ∧ (performancePctIdx cols = none ↔
        ∀ j, s < j → j < cols.length → tpCond (cols.getD j "") = false) := by
  constructor
  · intro i hi
    unfold performancePctIdx at hi
    rw [hs] at hi
    simp only [Option.map_eq_some'] at hi
    obtain ⟨t, ht, hti⟩ := hi
    obtain ⟨htlen, htp, hmin⟩ := firstIdxFrom_zero_some tpCond _ t ht
    rw [List.length_drop] at htlen
    rw [drop_getD] at htp
    subst hti
    refine ⟨by omega, by omega, ?_, ?_⟩
    · have heq : t + (s + 1) = (s + 1) + t := Nat.add_comm _ _
      rw [heq]
      exact htp
    · intro j hj1 hj2
      have hj' : j - (s + 1) < t := by omega
      have hres := hmin (j - (s + 1)) hj'
      rw [drop_getD] at hres
      have heq : (s + 1) + (j - (s + 1)) = j := by omega
      rw [heq] at hres
      exact hres
  · unfold performancePctIdx
    rw [hs]
    simp only [Option.map_eq_none']
    rw [firstIdxFrom_zero_none]
    constructor
    · intro h j hj1 hj2
      have hres := h (j - (s + 1)) (by rw [List.length_drop]; omega)
      rw [drop_getD] at hres
      have heq : (s + 1) + (j - (s + 1)) = j := by omega
      rw [heq] at hres
      exact hres
    · intro h t ht
      rw [List.length_drop] at ht
      rw [drop_getD]
      exact h ((s + 1) + t) (by omega) (by omega)

/-- C10 witness: with the percentage column standing BEFORE the Test
Status column, resolution fails even though a matching column exists. -/
theorem C10_percentage_resolution_witness :
    performancePctIdx ["Total Percentage", "Test Status"] = none
    ∧ tpCond "Total Percentage" = true := by
  constructor
  · refine (C10_percentage_resolution ["Total Percentage", "Test Status"] 1 (by decide)).2.mpr ?_
    intro j hj1 hj2
    simp only [List.length_cons, List.length_nil] at hj2
    exact absurd hj1 (by omega)
  · decide

/-! ## Column resolution: related columns (claim C6, parul_weekly.py)

The max-score column fixes a base prefix; the student-score and
total-percentage columns are then located by a tiered search: exact
match on the trimmed lowercase name, then a single pass that returns the
first column ending with the suffix whose leading part equals the base,
collecting columns whose leading part merely contains the base (or, for
an empty base, every column ending with the suffix) as candidates and
returning the first candidate when the pass ends. -/

def relTierLeadEq (baseL suffixL : String) (col : String) : Bool :=
  pyEndsWith (pyLower (pyStrip col)) suffixL
    && (baseL != ""
        && (pyRStrip (pyDropLast (pyLower (pyStrip col)) suffixL.toList.length) == baseL))

def relTierCand (baseL suffixL : String) (col : String) : Bool :=
  pyEndsWith (pyLower (pyStrip col)) suffixL
    && ((baseL != ""
          && pyIn baseL (pyRStrip (pyDropLast (pyLower (pyStrip col)) suffixL.toList.length)))
        || baseL == "")

/-- The single pass over the header of parul_weekly.py related-column
search, with the list of collected candidates as accumulator.  The
branch structure mirrors the source if-chain: skip columns not ending
with the suffix, return at a leading-part-equality match, collect a
containment match (or, for an empty base, any suffix match) as a
candidate. -/
def relatedScan (baseL suffixL : String) : List String → List String → Option String
  | [], cands => cands.head?
  | col :: rest, cands =>
      match pyEndsWith (pyLower (pyStrip col)) suffixL,
            baseL != ""
              && (pyRStrip (pyDropLast (pyLower (pyStrip col)) suffixL.toList.length) == baseL),
            baseL != ""
              && pyIn baseL (pyRStrip (pyDropLast (pyLower (pyStrip col)) suffixL.toList.length)),
            baseL == "" with
      | false, _, _, _ => relatedScan baseL suffixL rest cands
      | true, true, _, _ => some col
      | true, false, true, _ => relatedScan baseL suffixL rest (cands ++ [col])
      | true, false, false, true => relatedScan baseL suffixL rest (cands ++ [col])
      | true, false, false, false => relatedScan baseL suffixL rest cands

def tierExactCond (basePfx sfx : String) (col : String) : Bool :=
  pyLower (pyStrip col) == pyLower (pyStrip (basePfx ++ " " ++ sfx))

/-- Embedding of the related-column finder of parul_weekly.py. -/
def find_related_column (cols : List String) (basePfx sfx : String) : Option String :=
  match cols.find? (tierExactCond basePfx sfx) with
  | some col => some col
  | none => relatedScan (pyLower (pyStrip basePfx)) (pyLower (pyStrip sfx)) cols []

/-- Related-column rule written from the words of claim C6: exact match,
otherwise the first column that ends with the suffix and contains the
prefix in its leading part, otherwise (empty prefix) any column ending
with the suffix. -/
def relatedColumnClaim (cols : List String) (basePfx sfx : String) : Option String :=
  match cols.find? (tierExactCond basePfx sfx) with
  | some col => some col
  | none =>
      if pyLower (pyStrip basePfx) != "" then
        cols.find? (fun col =>
          pyEndsWith (pyLower (pyStrip col)) (pyLower (pyStrip sfx))
            && pyIn (pyLower (pyStrip basePfx))
                (pyRStrip (pyDropLast (pyLower (pyStrip col))
                  (pyLower (pyStrip sfx)).toList.length)))
      else
        cols.find? (fun col => pyEndsWith (pyLower (pyStrip col)) (pyLower (pyStrip sfx)))

/-- Amended related-column rule: between the exact tier and the
containment tier sits a leading-part-equality tier which returns its
first match and takes precedence over earlier containment candidates. -/
def relatedColumnAmended (cols : List String) (basePfx sfx : String) : Option String :=
  match cols.find? (tierExactCond basePfx sfx) with
  | some col => some col
  | none =>
      match cols.find? (relTierLeadEq (pyLower (pyStrip basePfx)) (pyLower (pyStrip sfx))) with
      | some col => some col
      | none => cols.find? (relTierCand (pyLower (pyStrip basePfx)) (pyLower (pyStrip sfx)))

lemma filter_head?_eq_find? (p : α → Bool) : ∀ l : List α, (l.filter p).head? = l.find? p
  | [] => rfl
  | a :: l => by
      cases hp : p a with
      | true => simp [List.filter_cons, List.find?_cons, hp]
      | false => simp [List.filter_cons, List.find?_cons, hp, filter_head?_eq_find? p l]

lemma relatedScan_eq (baseL suffixL : String) :
    ∀ (l : List String) (cands : List String),
      relatedScan baseL suffixL l cands
        = match l.find? (relTierLeadEq baseL suffixL) with
          | some col => some col
          | none => (cands ++ l.filter (relTierCand baseL suffixL)).head? := by
  intro l
  induction l with
  | nil => intro cands; simp [relatedScan]
  | cons col rest ih =>
      intro cands
      cases he : pyEndsWith (pyLower (pyStrip col)) suffixL with
      | false =>
          have hLead : relTierLeadEq baseL suffixL col = false := by
            unfold relTierLeadEq; rw [he, Bool.false_and]
          have hCand : relTierCand baseL suffixL col = false := by
            unfold relTierCand; rw [he, Bool.false_and]
          have step : relatedScan baseL suffixL (col :: rest) cands
              = relatedScan baseL suffixL rest cands := by
            simp only [relatedScan, he]
          rw [step, ih, List.find?_cons, hLead, List.filter_cons, hCand]
          simp
      | true =>
          cases hq : (baseL != ""
              && (pyRStrip (pyDropLast (pyLower (pyStrip col)) suffixL.toList.length)
                    == baseL)) with
          | true =>
              have hLead : relTierLeadEq baseL suffixL col = true := by
                unfold relTierLeadEq; rw [he, Bool.true_and]; exact hq
              have step : relatedScan baseL suffixL (col :: rest) cands = some col := by
                simp only [relatedScan, he, hq]
              rw [step, List.find?_cons, hLead]
          | false =>
              have hLead : relTierLeadEq baseL suffixL col = false := by
                unfold relTierLeadEq; rw [he, Bool.true_and]; exact hq
              cases hr : (baseL != ""
                  && pyIn baseL
                      (pyRStrip (pyDropLast (pyLower (pyStrip col)) suffixL.toList.length))) with
              | true =>
                  have hCand : relTierCand baseL suffixL col = true := by
                    unfold relTierCand; rw [he, Bool.true_and, hr, Bool.true_or]
                  have step : relatedScan baseL suffixL (col :: rest) cands
                      = relatedScan baseL suffixL rest (cands ++ [col]) := by
                    simp only [relatedScan, he, hq, hr]
                  rw [step, ih, List.find?_cons, hLead, List.filter_cons, hCand]
                  simp [List.append_assoc]
              | false =>
                  cases hb : baseL == "" with
                  | true =>
                      have hCand : relTierCand baseL suffixL col = true := by
                        unfold relTierCand; rw [he, Bool.true_and, hr, hb, Bool.false_or]
                      have step : relatedScan baseL suffixL (col :: rest) cands
                          = relatedScan baseL suffixL rest (cands ++ [col]) := by
                        simp only [relatedScan, he, hq, hr, hb]
                      rw [step, ih, List.find?_cons, hLead, List.filter_cons, hCand]
                      simp [List.append_assoc]
                  | false =>
                      have hCand : relTierCand baseL suffixL col = false := by
                        unfold relTierCand; rw [he, Bool.true_and, hr, hb, Bool.false_or]
                      have step : relatedScan baseL suffixL (col :: rest) cands
                          = relatedScan baseL suffixL rest cands := by
                        simp only [relatedScan, he, hq, hr, hb]
                      rw [step, ih, List.find?_cons, hLead, List.filter_cons, hCand]
                      simp

/-- C6 counterexample: with base prefix abc, the header cell whose
leading part merely contains the prefix comes first, but the code
prefers a later cell whose leading part equals the prefix exactly; the
claimed two-tier rule picks the earlier cell. -/
theorem C6_related_column_counterexample :
    find_related_column ["xabc student score", "abc  student score"] "abc" "student score"
        = some "abc  student score"
    ∧ relatedColumnClaim ["xabc student score", "abc  student score"] "abc" "student score"
        = some "xabc student score"
    ∧ (some "abc  student score" : Option String) ≠ some "xabc student score" :=
  ⟨by decide, by decide, by decide⟩

/-- C6 amended: the related-column resolution is a three-tier rule,
first candidate in header order winning at each tier and resolution
failing when no tier matches: exact equality of the trimmed lowercase
name with prefix-space-suffix; then the first column ending with the
suffix whose right-trimmed leading part EQUALS the prefix; then the
first column ending with the suffix whose leading part contains the
prefix, or, when the prefix is empty, any column ending with the
suffix. -/
theorem C6_related_column_amended :
    ∀ (cols : List String) (basePfx sfx : String),
      find_related_column cols basePfx sfx = relatedColumnAmended cols basePfx sfx := by
  intro cols basePfx sfx
  unfold find_related_column relatedColumnAmended
  cases h : cols.find? (tierExactCond basePfx sfx) with
  | some col => rfl
  | none =>
      rw [relatedScan_eq]
      cases h2 : cols.find? (relTierLeadEq (pyLower (pyStrip basePfx)) (pyLower (pyStrip sfx))) with
      | some col => rfl
      | none =>
          rw [List.nil_append]
          exact filter_head?_eq_find? _ cols

/-! ## Aggregation and pivot engine

A pivot input row carries the grouping value, the category value and the
count-column value; each is null or a string (for counting only nullness
of the count value matters).  pandas pivot construction groups rows with
non-null grouping and category values, producing the distinct observed
values in sorted order. -/

structure PivotRow where
  dept : Option String
  cat  : Option String
  cnt  : Option String
deriving DecidableEq

/-- Stable insertion with a strict comparison: the new element is put
before the first resident that is not strictly smaller.  Any stable sort
computes the same list as the Python sorted builtin. -/
def pyInsertBy (lt : α → α → Bool) (a : α) : List α → List α
  | [] => [a]
  | b :: bs => if lt b a then b :: pyInsertBy lt a bs else a :: b :: bs

/-- Stable sort by repeated insertion, modelling the Python sorted
builtin with a key function. -/
def pySortBy (lt : α → α → Bool) (l : List α) : List α := l.foldr (pyInsertBy lt) []

lemma pyInsertBy_perm (lt : α → α → Bool) (a : α) :
    ∀ l : List α, List.Perm (pyInsertBy lt a l) (a :: l) := by
  intro l
  induction l with
  | nil => exact List.Perm.refl _
  | cons b bs ih =>
      unfold pyInsertBy
      cases h : lt b a with
      | true =>
          rw [if_pos rfl]
          exact (ih.cons b).trans (List.Perm.swap a b bs)
      | false =>
          rw [if_neg (by simp)]

lemma pySortBy_perm (lt : α → α → Bool) : ∀ l : List α, List.Perm (pySortBy lt l) l := by
  intro l
  induction l with
  | nil => exact List.Perm.refl _
  | cons a bs ih =>
      have : pySortBy lt (a :: bs) = pyInsertBy lt a (pySortBy lt bs) := rfl
      rw [this]
      exact (pyInsertBy_perm lt a (pySortBy lt bs)).trans (ih.cons a)

/-- Lexicographic comparison of strings by character code, the order
the Python sorted builtin uses on the pivot keys. -/
def strLtChars : List Char → List Char → Bool
  | [], [] => false
  | [], _ :: _ => true
  | _ :: _, [] => false
  | a :: as, b :: bs =>
      if a.toNat < b.toNat then true
      else if b.toNat < a.toNat then false
      else strLtChars as bs

def strLt (a b : String) : Bool := strLtChars a.toList b.toList

/-- Sorted order of pandas group keys. -/
def sortStrings (l : List String) : List String := pySortBy strLt l

def validRow (r : PivotRow) : Bool := r.dept.isSome && r.cat.isSome

/-- Distinct grouping values of the rows entering the pivot, sorted. -/
def observedDepts (rows : List PivotRow) : List String :=
  sortStrings (((rows.filter validRow).filterMap (fun r => r.dept)).dedup)

/-- Distinct category values of the rows entering the pivot, sorted. -/
def observedCats (rows : List PivotRow) : List String :=
  sortStrings (((rows.filter validRow).filterMap (fun r => r.cat)).dedup)

/-- One pivot cell: the count aggregation counts the rows of the group
with a non-null count-column value. -/
def cellCount (rows : List PivotRow) (d c : String) : Nat :=
  (rows.filter (fun r => r.dept == some d && r.cat == some c && r.cnt.isSome)).length

lemma mem_observedDepts {rows : List PivotRow} {d : String} :
    d ∈ observedDepts rows ↔ ∃ r ∈ rows, validRow r = true ∧ r.dept = some d := by
  unfold observedDepts sortStrings
  rw [(pySortBy_perm _ _).mem_iff, List.mem_dedup, List.mem_filterMap]
  constructor
  · rintro ⟨r, hr, hd⟩
    exact ⟨r, (List.mem_filter.mp hr).1, (List.mem_filter.mp hr).2, hd⟩
  · rintro ⟨r, hr, hv, hd⟩
    exact ⟨r, List.mem_filter.mpr ⟨hr, hv⟩, hd⟩

lemma mem_observedCats {rows : List PivotRow} {c : String} :
    c ∈ observedCats rows ↔ ∃ r ∈ rows, validRow r = true ∧ r.cat = some c := by
  unfold observedCats sortStrings
  rw [(pySortBy_perm _ _).mem_iff, List.mem_dedup, List.mem_filterMap]
  constructor
  · rintro ⟨r, hr, hd⟩
    exact ⟨r, (List.mem_filter.mp hr).1, (List.mem_filter.mp hr).2, hd⟩
  · rintro ⟨r, hr, hv, hd⟩
    exact ⟨r, List.mem_filter.mpr ⟨hr, hv⟩, hd⟩

lemma nodup_observedDepts (rows : List PivotRow) : (observedDepts rows).Nodup :=
  ((pySortBy_perm _ _).nodup_iff).mpr (List.nodup_dedup _)

lemma nodup_observedCats (rows : List PivotRow) : (observedCats rows).Nodup :=
  ((pySortBy_perm _ _).nodup_iff).mpr (List.nodup_dedup _)

/-! ## The weekly div-wise pivots (parul_weekly.py) -/

def weeklyCategoryOrder : List String :=
  ["Good (75%+)", "Satisfactory (50% - 75%)", "Needs Attention (25% - 50%)",
   "Intervention (0% - 25%)", "Not Started"]

/-- Header of the Div Wise Performance Summary sheet after reindexing
the pivot columns to the fixed category order and resetting the index:
the department column followed by exactly the fixed categories.  No
Grand Total column is ever added to this pivot. -/
def divPerfHeader (deptName : String) : List String := deptName :: weeklyCategoryOrder

def divPerfRowLabels (rows : List PivotRow) : List String :=
  observedDepts rows ++ ["Grand Total"]

/-- Cell of the Div Wise Performance pivot; the reindex fill value 0
coincides with the empty count for categories absent from the data. -/
def divPerfCell (rows : List PivotRow) (d c : String) : Nat := cellCount rows d c

/-- The Grand Total row of the Div Wise Performance pivot, assigned in
the source as the column-wise sums of the pivot. -/
def divPerfGrandTotalRow (rows : List PivotRow) (c : String) : Nat :=
  ((observedDepts rows).map (fun d => cellCount rows d c)).sum

def weeklyStatusOrder : List String := ["Completed", "Not Started"]

def divPartHeader (deptName : String) : List String :=
  deptName :: (weeklyStatusOrder ++ ["Grand Total"])

def divPartCell (rows : List PivotRow) (d c : String) : Nat := cellCount rows d c

/-- Grand Total column of the Div Wise Participation pivot: row-wise sum
across the fixed status columns. -/
def divPartGrandTotalCol (rows : List PivotRow) (d : String) : Nat :=
  (weeklyStatusOrder.map (fun c => cellCount rows d c)).sum

/-- Grand Total row of the Div Wise Participation pivot: column-wise
sums. -/
def divPartGrandTotalRow (rows : List PivotRow) (c : String) : Nat :=
  ((observedDepts rows).map (fun d => cellCount rows d c)).sum

/-- Corner of the Div Wise Participation pivot: the Grand Total row is
assigned after the Grand Total column, so the corner sums that column
over the departments. -/
def divPartCorner (rows : List PivotRow) : Nat :=
  ((observedDepts rows).map (fun d => divPartGrandTotalCol rows d)).sum

/-! ## The margins pivot of participation.py

pandas margins are aggregated counts, not sums of the pivot cells: the
row margin counts every row of the department with a non-null count
value, the column margin counts every row of the status, and the corner
counts every row with a non-null count value. -/

def marginRowTotal (rows : List PivotRow) (d : String) : Nat :=
  (rows.filter (fun r => r.dept == some d && r.cnt.isSome)).length

def marginColTotal (rows : List PivotRow) (c : String) : Nat :=
  (rows.filter (fun r => r.cat == some c && r.cnt.isSome)).length

def marginGrand (rows : List PivotRow) : Nat :=
  (rows.filter (fun r => r.cnt.isSome)).length

/-- Final column order of the participation pivot: department, observed
statuses sorted, Grand Total last. -/
def participationPivotHeader (rows : List PivotRow) (deptName : String) : List String :=
  deptName :: (observedCats rows ++ ["Grand Total"])

/-! ## Performance report fixed category ordering (performance.py) -/

def perfCategoryOrder : List String :=
  ["Good", "Satisfactory", "Need Attention", "Intervention", "Not Attended"]

/-- Sort key of performance.py: index in the fixed order, 999 for a
category outside the fixed list. -/
def perfSortKey (c : String) : Nat :=
  match firstIdxFrom (fun x => x == c) perfCategoryOrder 0 with
  | some i => i
  | none => 999

def perfLtKey (a b : String) : Bool := perfSortKey a < perfSortKey b

/-- Category columns of the performance pivot after the stable sort by
the fixed-order key. -/
def perfSortCats (observed : List String) : List String := pySortBy perfLtKey observed

/-- Final column order of the performance pivot: department, sorted
category columns, Grand Total last. -/
def perfFinalCols (deptName : String) (observed : List String) : List String :=
  deptName :: (perfSortCats observed ++ ["Grand Total"])

def isExtraCat (c : String) : Bool := !(perfCategoryOrder.contains c)

/-! ## Ordering facts for the performance pivot columns (claim C3) -/

lemma perfSortKey_lt_of_mem {c : String} (h : c ∈ perfCategoryOrder) : perfSortKey c < 999 := by
  fin_cases h <;> decide

lemma perfSortKey_eq_of_extra {c : String} (h : isExtraCat c = true) : perfSortKey c = 999 := by
  unfold isExtraCat at h
  unfold perfSortKey
  cases hf : firstIdxFrom (fun x => x == c) perfCategoryOrder 0 with
  | none => rfl
  | some i =>
      exfalso
      obtain ⟨hlen, hp, _⟩ := firstIdxFrom_zero_some _ _ _ hf
      have hgd : perfCategoryOrder.getD i "" = c := by simpa using hp
      have hmem : c ∈ perfCategoryOrder := by
        rw [← hgd]
        rw [List.getD_eq_getElem?_getD, List.getElem?_eq_getElem hlen]
        exact List.getElem_mem _
      simp [hmem] at h

lemma mem_of_not_extra {c : String} (h : isExtraCat c = false) : c ∈ perfCategoryOrder := by
  unfold isExtraCat at h
  simpa using h

lemma pyInsertBy_append_of_lt (lt : α → α → Bool) (a : α) :
    ∀ (f e : List α), (∀ b ∈ f, lt b a = true) →
      (∀ hd, e.head? = some hd → lt hd a = false) →
      pyInsertBy lt a (f ++ e) = f ++ a :: e := by
  intro f
  induction f with
  | nil =>
      intro e hf he
      cases e with
      | nil => rfl
      | cons hd t =>
          have hlt : lt hd a = false := he hd rfl
          show pyInsertBy lt a (hd :: t) = a :: hd :: t
          unfold pyInsertBy
          rw [if_neg (by simp [hlt])]
  | cons b f0 ih =>
      intro e hf he
      have hb : lt b a = true := hf b (by simp)
      show pyInsertBy lt a (b :: (f0 ++ e)) = b :: (f0 ++ a :: e)
      unfold pyInsertBy
      rw [if_pos hb]
      rw [ih e (fun x hx => hf x (by simp [hx])) he]

lemma pyInsertBy_stay_of_ge (lt : α → α → Bool) (a : α) :
    ∀ (f e : List α), (∀ b ∈ e, lt b a = false) →
      ∃ f2, pyInsertBy lt a (f ++ e) = f2 ++ e ∧ ∀ x ∈ f2, x = a ∨ x ∈ f := by
  intro f
  induction f with
  | nil =>
      intro e he
      cases e with
      | nil => exact ⟨[a], rfl, by simp⟩
      | cons hd t =>
          refine ⟨[a], ?_, by simp⟩
          show pyInsertBy lt a (hd :: t) = [a] ++ hd :: t
          unfold pyInsertBy
          rw [if_neg (by simp [he hd (by simp)])]
          rfl
  | cons b f0 ih =>
      intro e he
      show ∃ f2, pyInsertBy lt a (b :: (f0 ++ e)) = f2 ++ e ∧ _
      unfold pyInsertBy
      cases hb : lt b a with
      | true =>
          obtain ⟨f2, heq, hsub⟩ := ih e he
          refine ⟨b :: f2, ?_, ?_⟩
          · rw [if_pos rfl, heq]
            rfl
          · intro x hx
            rcases List.mem_cons.mp hx with rfl | hx2
            · exact Or.inr (by simp)
            · rcases hsub x hx2 with rfl | hxf
              · exact Or.inl rfl
              · exact Or.inr (by simp [hxf])
      | false =>
          refine ⟨a :: b :: f0, ?_, ?_⟩
          · rw [if_neg (by simp)]
            rfl
          · intro x hx
            rcases List.mem_cons.mp hx with rfl | hx2
            · exact Or.inl rfl
            · exact Or.inr hx2

lemma perfSortCats_shape : ∀ observed : List String,
    ∃ f, perfSortCats observed = f ++ observed.filter isExtraCat
      ∧ ∀ x ∈ f, isExtraCat x = false := by
  intro observed
  induction observed with
  | nil => exact ⟨[], rfl, by simp⟩
  | cons o l ih =>
      obtain ⟨f, heq, hf⟩ := ih
      have hstep : perfSortCats (o :: l) = pyInsertBy perfLtKey o (perfSortCats l) := rfl
      cases ho : isExtraCat o with
      | true =>
          have hkey : perfSortKey o = 999 := perfSortKey_eq_of_extra ho
          have hA : ∀ b ∈ f, perfLtKey b o = true := by
            intro b hb
            have hblt : perfSortKey b < 999 := perfSortKey_lt_of_mem (mem_of_not_extra (hf b hb))
            unfold perfLtKey
            rw [hkey]
            simpa using hblt
          have hB : ∀ hd, (l.filter isExtraCat).head? = some hd → perfLtKey hd o = false := by
            intro hd hhd
            cases hfl : l.filter isExtraCat with
            | nil => rw [hfl] at hhd; simp at hhd
            | cons hd0 t =>
                rw [hfl] at hhd
                have hd0eq : hd0 = hd := by simpa using hhd
                have hdext : isExtraCat hd = true := by
                  have hm : hd ∈ l.filter isExtraCat := by
                    rw [hfl, ← hd0eq]
                    simp
                  exact List.of_mem_filter hm
                unfold perfLtKey
                rw [hkey, perfSortKey_eq_of_extra hdext]
                simp
          refine ⟨f, ?_, hf⟩
          rw [hstep, heq, pyInsertBy_append_of_lt _ _ _ _ hA hB]
          rw [List.filter_cons, ho, if_pos rfl]
      | false =>
          have hB : ∀ b ∈ l.filter isExtraCat, perfLtKey b o = false := by
            intro b hb
            have hbext : isExtraCat b = true := List.of_mem_filter hb
            have hkey : perfSortKey o < 999 := perfSortKey_lt_of_mem (mem_of_not_extra ho)
            unfold perfLtKey
            rw [perfSortKey_eq_of_extra hbext]
            simp
            omega
          obtain ⟨f2, heq2, hsub⟩ := pyInsertBy_stay_of_ge perfLtKey o f (l.filter isExtraCat) hB
          refine ⟨f2, ?_, ?_⟩
          · rw [hstep, heq, heq2, List.filter_cons, ho, if_neg (by simp)]
          · intro x hx
            rcases hsub x hx with rfl | hxf
            · exact ho
            · exact hf x hxf

lemma cellCount_eq_zero_of_unobserved (rows : List PivotRow) (d c : String)
    (h : ∀ r ∈ rows, r.cat ≠ some c) : cellCount rows d c = 0 := by
  unfold cellCount
  rw [List.length_eq_zero, List.filter_eq_nil_iff]
  intro r hr hcontra
  rw [Bool.and_eq_true, Bool.and_eq_true] at hcontra
  exact h r hr (by simpa using hcontra.1.2)

/-- Example rows for the weekly pivots: one category outside the fixed
list is observed. -/
def pivotExampleRows : List PivotRow :=
  [⟨some "A", some "Good (75%+)", some "x"⟩, ⟨some "A", some "Invalid Score", some "y"⟩]

/-- C3 counterexample: the weekly pivot observes the category Invalid
Score, yet the reindexed pivot columns are exactly the fixed order; the
extra observed category is dropped, not appended. -/
theorem C3_fixed_order_counterexample :
    "Invalid Score" ∈ observedCats pivotExampleRows
    ∧ divPerfHeader "Department" = "Department" :: weeklyCategoryOrder
    ∧ "Invalid Score" ∉ divPerfHeader "Department" := by
  refine ⟨by decide, rfl, by decide⟩

/-- C3 amended: with a fixed category order the two pivots behave
differently.  The weekly pivot reindexes to the fixed order wholesale:
absent categories appear with count 0 but observed extras are dropped.
The performance pivot keeps exactly the observed categories: extras are
kept and appended as a block after all fixed-order categories (in their
observed, hence alphabetical, order), while absent fixed categories are
omitted rather than 0-filled. -/
theorem C3_fixed_order_amended :
    (∀ deptName : String, divPerfHeader deptName = deptName :: weeklyCategoryOrder)
    ∧ (∀ (rows : List PivotRow) (d c : String),
        (∀ r ∈ rows, r.cat ≠ some c) → divPerfCell rows d c = 0)
    ∧ (∀ (observed : List String) (x : String),
        x ∈ perfSortCats observed ↔ x ∈ observed)
    ∧ (∀ observed : List String,
        ∃ f, perfSortCats observed = f ++ observed.filter isExtraCat
          ∧ ∀ x ∈ f, isExtraCat x = false) := by
  refine ⟨fun _ => rfl, ?_, ?_, perfSortCats_shape⟩
  · intro rows d c h
    exact cellCount_eq_zero_of_unobserved rows d c h
  · intro observed x
    exact (pySortBy_perm perfLtKey observed).mem_iff

/-- C3 witness: applying the 0-fill clause at a concrete table. -/
theorem C3_fixed_order_amended_witness :
    divPerfCell pivotExampleRows "A" "Not Started" = 0 :=
  C3_fixed_order_amended.2.1 pivotExampleRows "A" "Not Started" (by decide)

/-! ## Counting facts for the pivot margins (claim C4) -/

lemma sum_map_zero (f : α → Nat) :
    ∀ l : List α, (∀ x ∈ l, f x = 0) → (l.map f).sum = 0 := by
  intro l
  induction l with
  | nil => intro _; rfl
  | cons a t ih =>
      intro h
      rw [List.map_cons, List.sum_cons, h a (by simp), ih (fun x hx => h x (by simp [hx]))]

lemma sum_map_add_nat (f g : α → Nat) : ∀ l : List α,
    ((l.map (fun x => f x + g x)).sum) = (l.map f).sum + (l.map g).sum := by
  intro l
  induction l with
  | nil => rfl
  | cons a t ih =>
      rw [List.map_cons, List.sum_cons, ih, List.map_cons, List.sum_cons,
        List.map_cons, List.sum_cons]
      omega

lemma sum_ite_count (v : Option String) :
    ∀ keys : List String, keys.Nodup →
      ((keys.map (fun k => if v == some k then 1 else 0)).sum)
        = if keys.any (fun k => v == some k) then 1 else 0 := by
  intro keys
  induction keys with
  | nil => intro _; rfl
  | cons k ks ih =>
      intro hnd
      have hnd2 : ks.Nodup := hnd.of_cons
      have hknotin : k ∉ ks := by
        have := List.nodup_cons.mp hnd
        exact this.1
      rw [List.map_cons, List.sum_cons, List.any_cons]
      cases hv : v == some k with
      | true =>
          have hveq : v = some k := by simpa using hv
          have hzero : ∀ k2 ∈ ks, (v == some k2) = false := by
            intro k2 hk2
            rw [hveq]
            by_contra hne
            have heqk : k = k2 := by
              have : (some k == some k2) = true := by
                cases hx : (some k == some k2 : Bool)
                · exact absurd hx hne
                · rfl
              simpa using this
            exact hknotin (heqk ▸ hk2)
          rw [sum_map_zero _ ks (fun k2 hk2 => by simp [hzero k2 hk2])]
          have hanyf : ks.any (fun k2 => v == some k2) = false := by
            rw [List.any_eq_false]
            intro k2 hk2
            simp [hzero k2 hk2]
          rw [hanyf]
          rfl
      | false =>
          rw [ih hnd2]
          simp

lemma sum_cell_counts (keys : List String) (hk : keys.Nodup)
    (Q : PivotRow → Bool) (sel : PivotRow → Option String) :
    ∀ rows : List PivotRow,
      ((keys.map (fun k => (rows.filter (fun r => Q r && sel r == some k)).length)).sum)
        = (rows.filter (fun r => Q r && keys.any (fun k => sel r == some k))).length := by
  intro rows
  induction rows with
  | nil =>
      rw [sum_map_zero _ keys (fun k hk2 => by simp)]
      simp
  | cons r t ih =>
      have hsplit : ∀ p : PivotRow → Bool,
          (((r :: t).filter p)).length = (if p r then 1 else 0) + ((t.filter p)).length := by
        intro p
        rw [List.filter_cons]
        cases hp : p r with
        | false => simp
        | true =>
            simp
            omega
      have hmap : keys.map (fun k => (((r :: t).filter (fun r2 => Q r2 && sel r2 == some k))).length)
          = keys.map (fun k =>
              (if (Q r && sel r == some k) then 1 else 0)
                + ((t.filter (fun r2 => Q r2 && sel r2 == some k))).length) :=
        List.map_congr_left (fun k _ => hsplit _)
      rw [hmap, sum_map_add_nat, ih, hsplit]
      congr 1
      cases hQ : Q r with
      | false =>
          rw [sum_map_zero _ keys (fun k hk2 => by simp)]
          simp
      | true =>
          have hs := sum_ite_count (sel r) keys hk
          simpa using hs

lemma cellCount_flip_dept (rows : List PivotRow) (d c : String) :
    cellCount rows d c
      = (rows.filter (fun r => (r.cat == some c && r.cnt.isSome) && r.dept == some d)).length := by
  unfold cellCount
  congr 1
  refine List.filter_congr ?_
  intro r _
  cases h1 : r.dept == some d <;> cases h2 : r.cat == some c <;> cases h3 : r.cnt.isSome <;> rfl

lemma cellCount_flip_cat (rows : List PivotRow) (d c : String) :
    cellCount rows d c
      = (rows.filter (fun r => (r.dept == some d && r.cnt.isSome) && r.cat == some c)).length := by
  unfold cellCount
  congr 1
  refine List.filter_congr ?_
  intro r _
  cases h1 : r.dept == some d <;> cases h2 : r.cat == some c <;> cases h3 : r.cnt.isSome <;> rfl

/-- Column sums over the observed departments count every row of the
category with a non-null count value and a non-null department. -/
lemma sum_depts_cellCount (rows : List PivotRow) (c : String) :
    ((observedDepts rows).map (fun d => cellCount rows d c)).sum
      = (rows.filter (fun r => (r.cat == some c && r.cnt.isSome) && r.dept.isSome)).length := by
  rw [List.map_congr_left (fun d _ => cellCount_flip_dept rows d c)]
  rw [sum_cell_counts (observedDepts rows) (nodup_observedDepts rows)
      (fun r => r.cat == some c && r.cnt.isSome) (fun r => r.dept) rows]
  congr 1
  refine List.filter_congr ?_
  intro r hr
  cases hQ : (r.cat == some c && r.cnt.isSome) with
  | false => rfl
  | true =>
      rw [Bool.true_and, Bool.true_and]
      cases hdept : r.dept with
      | none => simp
      | some d0 =>
          have hcat : r.cat.isSome = true := by
            rw [Bool.and_eq_true] at hQ
            cases hc : r.cat
            · rw [hc] at hQ; simp at hQ
            · simp
          have hvalid : validRow r = true := by
            unfold validRow
            rw [hdept, hcat]
            rfl
          have hmem : d0 ∈ observedDepts rows := mem_observedDepts.mpr ⟨r, hr, hvalid, hdept⟩
          simp only [Option.isSome_some]
          rw [List.any_eq_true]
          exact ⟨d0, hmem, by simp⟩

/-- Row sums over a fixed nodup list of categories count every row of
the department with a non-null count value and a category in the
list. -/
lemma sum_cats_cellCount (rows : List PivotRow) (d : String)
    (keys : List String) (hk : keys.Nodup) :
    ((keys.map (fun c => cellCount rows d c)).sum)
      = (rows.filter (fun r => (r.dept == some d && r.cnt.isSome)
            && keys.any (fun c => r.cat == some c))).length := by
  rw [List.map_congr_left (fun c _ => cellCount_flip_cat rows d c)]
  rw [sum_cell_counts keys hk (fun r => r.dept == some d && r.cnt.isSome) (fun r => r.cat) rows]

lemma divPartCorner_eq (rows : List PivotRow) :
    divPartCorner rows
      = (rows.filter (fun r =>
          (r.cnt.isSome && weeklyStatusOrder.any (fun c => r.cat == some c))
            && r.dept.isSome)).length := by
  unfold divPartCorner divPartGrandTotalCol
  have h1 : ∀ d, ((weeklyStatusOrder.map (fun c => cellCount rows d c)).sum)
      = (rows.filter (fun r =>
          (r.cnt.isSome && weeklyStatusOrder.any (fun c => r.cat == some c))
            && r.dept == some d)).length := by
    intro d
    rw [sum_cats_cellCount rows d weeklyStatusOrder (by decide)]
    congr 1
    refine List.filter_congr ?_
    intro r _
    cases hdp : r.dept == some d <;> cases hcn : r.cnt.isSome
      <;> cases han : weeklyStatusOrder.any (fun c => r.cat == some c) <;> rfl
  rw [List.map_congr_left (fun d _ => h1 d)]
  rw [sum_cell_counts (observedDepts rows) (nodup_observedDepts rows)
      (fun r => r.cnt.isSome && weeklyStatusOrder.any (fun c => r.cat == some c))
      (fun r => r.dept) rows]
  congr 1
  refine List.filter_congr ?_
  intro r hr
  cases hQ : (r.cnt.isSome && weeklyStatusOrder.any (fun c => r.cat == some c)) with
  | false => rfl
  | true =>
      rw [Bool.true_and, Bool.true_and]
      cases hdept : r.dept with
      | none => simp
      | some d0 =>
          rw [Bool.and_eq_true] at hQ
          have hany := hQ.2
          rw [List.any_eq_true] at hany
          obtain ⟨c0, hc0mem, hc0⟩ := hany
          have hcat : r.cat.isSome = true := by
            cases hc : r.cat
            · rw [hc] at hc0; simp at hc0
            · simp
          have hvalid : validRow r = true := by
            unfold validRow
            rw [hdept, hcat]
            rfl
          have hmem : d0 ∈ observedDepts rows := mem_observedDepts.mpr ⟨r, hr, hvalid, hdept⟩
          simp only [Option.isSome_some]
          rw [List.any_eq_true]
          exact ⟨d0, hmem, by simp⟩

lemma marginGrand_eq (rows : List PivotRow)
    (h : ∀ r ∈ rows, r.cnt.isSome = true → validRow r = true) :
    marginGrand rows = (rows.filter (fun r => validRow r && r.cnt.isSome)).length := by
  unfold marginGrand
  congr 1
  refine List.filter_congr ?_
  intro r hr
  cases hcn : r.cnt.isSome with
  | false => simp
  | true => simp [h r hr hcn]

lemma marginRowTotal_eq (rows : List PivotRow) (d : String)
    (h : ∀ r ∈ rows, r.cnt.isSome = true → validRow r = true) :
    marginRowTotal rows d = ((observedCats rows).map (fun c => cellCount rows d c)).sum := by
  rw [sum_cats_cellCount rows d (observedCats rows) (nodup_observedCats rows)]
  unfold marginRowTotal
  congr 1
  refine List.filter_congr ?_
  intro r hr
  cases hQ : (r.dept == some d && r.cnt.isSome) with
  | false => rfl
  | true =>
      rw [Bool.true_and]
      rw [Bool.and_eq_true] at hQ
      have hvalid := h r hr hQ.2
      have hcat : ∃ c0, r.cat = some c0 := by
        unfold validRow at hvalid
        cases hc : r.cat
        · rw [hc] at hvalid; simp at hvalid
        · exact ⟨_, rfl⟩
      obtain ⟨c0, hc0⟩ := hcat
      have hmem : c0 ∈ observedCats rows := mem_observedCats.mpr ⟨r, hr, hvalid, hc0⟩
      symm
      rw [List.any_eq_true]
      exact ⟨c0, hmem, by simp [hc0]⟩

/-- Example rows for the margin theorems. -/
def marginExampleRows : List PivotRow :=
  [⟨some "A", some "Good (75%+)", some "x"⟩,
   ⟨some "B", some "Not Started", some "y"⟩,
   ⟨some "A", some "Not Started", some "z"⟩]

/-- C4 counterexample: the weekly div-wise performance pivot is a
produced pivot whose columns are only the department and the fixed
categories; it carries no Grand Total column, only a Grand Total row
appended last. -/
theorem C4_margins_counterexample :
    divPerfHeader "Department" = "Department" :: weeklyCategoryOrder
    ∧ "Grand Total" ∉ divPerfHeader "Department"
    ∧ divPerfRowLabels marginExampleRows = ["A", "B", "Grand Total"] := by
  refine ⟨rfl, by decide, by decide⟩

/-- C4 amended: not every pivot carries both margins.  The weekly
div-wise performance pivot appends only a Grand Total row, whose entry
for a category counts every contributing row of that category; the
weekly div-wise participation pivot carries a Grand Total column equal
to the row-wise counts over the fixed statuses and a corner equal to
the count of contributing rows (department non-null, status in the
fixed list, count value non-null); the margins pivot of the
participation report has its corner equal to the contributing row count
and its row margin equal to the row-wise sum across the observed
category columns whenever every counted row carries non-null grouping
and category values. -/
theorem C4_margins_amended :
    (∀ (rows : List PivotRow) (c : String),
        divPerfGrandTotalRow rows c
          = (rows.filter (fun r => (r.cat == some c && r.cnt.isSome) && r.dept.isSome)).length)
    ∧ (∀ (rows : List PivotRow) (d : String),
        divPartGrandTotalCol rows d
          = (rows.filter (fun r => (r.dept == some d && r.cnt.isSome)
              && weeklyStatusOrder.any (fun c => r.cat == some c))).length)
    ∧ (∀ rows : List PivotRow,
        divPartCorner rows
          = (rows.filter (fun r =>
              (r.cnt.isSome && weeklyStatusOrder.any (fun c => r.cat == some c))
                && r.dept.isSome)).length)
    ∧ (∀ rows : List PivotRow,
        (∀ r ∈ rows, r.cnt.isSome = true → validRow r = true) →
          marginGrand rows = (rows.filter (fun r => validRow r && r.cnt.isSome)).length
            ∧ ∀ d, marginRowTotal rows d
                = ((observedCats rows).map (fun c => cellCount rows d c)).sum) := by
  refine ⟨?_, ?_, divPartCorner_eq, ?_⟩
  · intro rows c
    unfold divPerfGrandTotalRow
    exact sum_depts_cellCount rows c
  · intro rows d
    unfold divPartGrandTotalCol
    exact sum_cats_cellCount rows d weeklyStatusOrder (by decide)
  · intro rows h
    exact ⟨marginGrand_eq rows h, fun d => marginRowTotal_eq rows d h⟩

/-- C4 witness: the margin clauses applied at a concrete clean table. -/
theorem C4_margins_amended_witness :
    marginGrand marginExampleRows
        = (marginExampleRows.filter (fun r => validRow r && r.cnt.isSome)).length
    ∧ marginRowTotal marginExampleRows "A"
        = ((observedCats marginExampleRows).map
            (fun c => cellCount marginExampleRows "A" c)).sum := by
  have h := C4_margins_amended.2.2.2 marginExampleRows (by decide)
  exact ⟨h.1, h.2 "A"⟩

/-! ## CSV loader fallback ladder (claim C7)

read_csv_with_encoding appears in app.py (with the nrows header-peek
parameter) and in the three report modules (without it).  The pandas
read outcomes are parameters of the embedding: attempt e d is the parse
with encoding e and delimiter d, none standing for any raised exception;
auto e is the parse with encoding e and separator auto-detection;
lastResort is the final utf-8 read with invalid bytes replaced, which is
returned without an emptiness test. -/

abbrev Df := List (List String)

def csvEncodings : List String := ["utf-8", "latin-1", "iso-8859-1", "cp1252", "windows-1252"]

def csvDelimiters : List String := [",", ";", "\t", "|"]

/-- Python truthiness of the optional nrows argument. -/
def pyTruthy : Option Nat → Bool
  | none => false
  | some n => n != 0

/-- Acceptance of a successful parse: at least one data row, or any
parse when a header peek with truthy nrows is requested. -/
def acceptDf (nrows : Option Nat) (df : Df) : Bool :=
  decide (0 < df.length) || pyTruthy nrows

/-- Inner delimiter loop: first accepted parse is returned, every
exception or rejected parse moves to the next delimiter. -/
def tryDelims (attempt : String → Option Df) (nrows : Option Nat) : List String → Option Df
  | [] => none
  | d :: ds =>
      match attempt d with
      | some df => if acceptDf nrows df then some df else tryDelims attempt nrows ds
      | none => tryDelims attempt nrows ds

/-- Outer encoding loop around the delimiter loop. -/
def tryEncodings (attempt : String → String → Option Df) (nrows : Option Nat) :
    List String → Option Df
  | [] => none
  | e :: es =>
      match tryDelims (attempt e) nrows csvDelimiters with
      | some df => some df
      | none => tryEncodings attempt nrows es

/-- Auto-detected-separator retry, one attempt per encoding. -/
def tryAutoDetect (auto : String → Option Df) (nrows : Option Nat) : List String → Option Df
  | [] => none
  | e :: es =>
      match auto e with
      | some df => if acceptDf nrows df then some df else tryAutoDetect auto nrows es
      | none => tryAutoDetect auto nrows es

/-- Embedding of read_csv_with_encoding: the 5 by 4 matrix with the
encoding loop outside, then the auto-detect retries, then the last
resort, and the unreadable-file error only when the last resort also
fails. -/
def read_csv_with_encoding (attempt : String → String → Option Df)
    (auto : String → Option Df) (lastResort : Option Df) (nrows : Option Nat) :
    Except String Df :=
  match tryEncodings attempt nrows csvEncodings with
  | some df => .ok df
  | none =>
      match tryAutoDetect auto nrows csvEncodings with
      | some df => .ok df
      | none =>
          match lastResort with
          | some df => .ok df
          | none => .error "Unable to read CSV file."

def firstSome : List (Option α) → Option α
  | [] => none
  | o :: os =>
      match o with
      | some a => some a
      | none => firstSome os

/-- A candidate outcome, kept only when the parse succeeded and is
accepted. -/
def acceptedCsv (nrows : Option Nat) (o : Option Df) : Option Df :=
  match o with
  | some df => if acceptDf nrows df then some df else none
  | none => none

/-- Ordered candidate ladder written from the words of claim C7: the 20
encoding-delimiter combinations with the encoding outermost, followed by
the per-encoding auto-detect retries. -/
def csvCandidates (attempt : String → String → Option Df) (auto : String → Option Df)
    (nrows : Option Nat) : List (Option Df) :=
  (csvEncodings.flatMap (fun e => csvDelimiters.map (fun d => acceptedCsv nrows (attempt e d))))
    ++ csvEncodings.map (fun e => acceptedCsv nrows (auto e))

/-- Loader behaviour written from the words of claim C7: return the
first accepted candidate, else the last resort parse, and raise the
unreadable-file error only when the last resort also fails. -/
def readCsvSpec (attempt : String → String → Option Df) (auto : String → Option Df)
    (lastResort : Option Df) (nrows : Option Nat) : Except String Df :=
  match firstSome (csvCandidates attempt auto nrows) with
  | some df => .ok df
  | none =>
      match lastResort with
      | some df => .ok df
      | none => .error "Unable to read CSV file."

lemma firstSome_append : ∀ l1 l2 : List (Option α),
    firstSome (l1 ++ l2)
      = match firstSome l1 with
        | some a => some a
        | none => firstSome l2 := by
  intro l1 l2
  induction l1 with
  | nil => rfl
  | cons o os ih =>
      cases o with
      | some a => rfl
      | none => simpa [firstSome] using ih

lemma tryDelims_eq (attempt : String → Option Df) (nrows : Option Nat) :
    ∀ ds : List String,
      tryDelims attempt nrows ds
        = firstSome (ds.map (fun d => acceptedCsv nrows (attempt d))) := by
  intro ds
  induction ds with
  | nil => rfl
  | cons d ds ih =>
      show (match attempt d with
            | some df => if acceptDf nrows df then some df else tryDelims attempt nrows ds
            | none => tryDelims attempt nrows ds) = _
      cases had : attempt d with
      | none => simpa [firstSome, acceptedCsv, had] using ih
      | some df =>
          cases hacc : acceptDf nrows df with
          | true => simp [firstSome, acceptedCsv, had, hacc]
          | false => simpa [firstSome, acceptedCsv, had, hacc] using ih

lemma tryAutoDetect_eq (auto : String → Option Df) (nrows : Option Nat) :
    ∀ es : List String,
      tryAutoDetect auto nrows es
        = firstSome (es.map (fun e => acceptedCsv nrows (auto e))) := by
  intro es
  induction es with
  | nil => rfl
  | cons e es ih =>
      show (match auto e with
            | some df => if acceptDf nrows df then some df else tryAutoDetect auto nrows es
            | none => tryAutoDetect auto nrows es) = _
      cases hae : auto e with
      | none => simpa [firstSome, acceptedCsv, hae] using ih
      | some df =>
          cases hacc : acceptDf nrows df with
          | true => simp [firstSome, acceptedCsv, hae, hacc]
          | false => simpa [firstSome, acceptedCsv, hae, hacc] using ih

lemma tryEncodings_eq (attempt : String → String → Option Df) (nrows : Option Nat) :
    ∀ es : List String,
      tryEncodings attempt nrows es
        = firstSome (es.flatMap
            (fun e => csvDelimiters.map (fun d => acceptedCsv nrows (attempt e d)))) := by
  intro es
  induction es with
  | nil => rfl
  | cons e es ih =>
      show (match tryDelims (attempt e) nrows csvDelimiters with
            | some df => some df
            | none => tryEncodings attempt nrows es) = _
      rw [List.flatMap_cons, firstSome_append, tryDelims_eq, ih]
      cases firstSome (List.map (fun d => acceptedCsv nrows (attempt e d)) csvDelimiters) with
      | some a => rfl
      | none => rfl

/-- C7: the CSV loader equals the ordered-candidate specification: the
first combination (encodings outer, delimiters inner) that parses and
is accepted wins, then the auto-detect retries, then the last resort,
and the unreadable-file error is raised only when the last resort also
fails, so no error is raised whenever any earlier strategy succeeds. -/
theorem C7_csv_loader_ladder :
    ∀ (attempt : String → String → Option Df) (auto : String → Option Df)
      (lastResort : Option Df) (nrows : Option Nat),
      read_csv_with_encoding attempt auto lastResort nrows
        = readCsvSpec attempt auto lastResort nrows := by
  intro attempt auto lastResort nrows
  unfold read_csv_with_encoding readCsvSpec csvCandidates
  rw [tryEncodings_eq, firstSome_append, tryAutoDetect_eq]
  cases firstSome (csvEncodings.flatMap
      (fun e => csvDelimiters.map (fun d => acceptedCsv nrows (attempt e d)))) with
  | some df => rfl
  | none =>
      cases firstSome (csvEncodings.map (fun e => acceptedCsv nrows (auto e))) with
      | some df => rfl
      | none => rfl

/-! ## Format sniffer (claim C8, app.py detect_file_type)

Files are byte lists.  The trailing text-probing loop (decoding a first
line and looking for delimiters or printable text) depends on the
platform codecs; it is abstracted as a parameter, and it only ever
produces the csv or the unknown classification, never excel. -/

def pkSig : List Nat := "PK".toList.map Char.toNat

def xlMarker : List Nat := "xl/".toList.map Char.toNat

def contentTypesMarker : List Nat := "[Content_Types].xml".toList.map Char.toNat

def utf8Bom : List Nat := [0xEF, 0xBB, 0xBF]

def utf16LeBom : List Nat := [0xFF, 0xFE]

def utf16BeBom : List Nat := [0xFE, 0xFF]

/-- Embedding of detect_file_type: an 8 byte header is read; a PK
signature demands a spreadsheet marker within the first 50 bytes for the
excel classification, else unknown; without the signature the byte order
marks classify as csv; otherwise the text probe decides between csv and
unknown. -/
def detect_file_type (textProbe : List Nat → Bool) (content : List Nat) : String :=
  if (content.take 8).take 2 = pkSig then
    if listContainsSub xlMarker (content.take 50)
        || listContainsSub contentTypesMarker (content.take 50) then "excel"
    else "unknown"
  else if (content.take 8).take 3 = utf8Bom then "csv"
  else if (content.take 8).take 2 = utf16LeBom ∨ (content.take 8).take 2 = utf16BeBom then "csv"
  else if textProbe content then "csv"
  else "unknown"

/-- C8: the sniffer classifies as excel exactly when the file starts
with the ZIP signature and a spreadsheet marker occurs within the first
50 bytes; a ZIP signature without a marker gives unknown; without the
signature a UTF-8 or UTF-16 byte order mark gives csv. -/
theorem C8_file_type_detection :
    ∀ (textProbe : List Nat → Bool) (content : List Nat),
      (detect_file_type textProbe content = "excel"
        ↔ content.take 2 = pkSig
          ∧ (xlMarker <:+: content.take 50 ∨ contentTypesMarker <:+: content.take 50))
      ∧ (content.take 2 = pkSig
          → ¬ (xlMarker <:+: content.take 50 ∨ contentTypesMarker <:+: content.take 50)
          → detect_file_type textProbe content = "unknown")
      ∧ (content.take 2 ≠ pkSig
          → (content.take 3 = utf8Bom ∨ content.take 2 = utf16LeBom ∨ content.take 2 = utf16BeBom)
          → detect_file_type textProbe content = "csv") := by
  intro probe content
  have h2 : (content.take 8).take 2 = content.take 2 := by
    rw [List.take_take]
    norm_num
  have h3 : (content.take 8).take 3 = content.take 3 := by
    rw [List.take_take]
    norm_num
  by_cases hpk : (content.take 8).take 2 = pkSig
  · have hpk2 : content.take 2 = pkSig := by rw [← h2]; exact hpk
    cases hm : (listContainsSub xlMarker (content.take 50)
        || listContainsSub contentTypesMarker (content.take 50)) with
    | true =>
        have hd : detect_file_type probe content = "excel" := by
          unfold detect_file_type
          rw [if_pos hpk, if_pos hm]
        have hmm : xlMarker <:+: content.take 50 ∨ contentTypesMarker <:+: content.take 50 := by
          rw [Bool.or_eq_true] at hm
          rcases hm with hm | hm
          · exact Or.inl ((listContainsSub_iff _ _).mp hm)
          · exact Or.inr ((listContainsSub_iff _ _).mp hm)
        exact ⟨⟨fun _ => ⟨hpk2, hmm⟩, fun _ => hd⟩,
          fun _ hno => absurd hmm hno, fun hno _ => absurd hpk2 hno⟩
    | false =>
        have hd : detect_file_type probe content = "unknown" := by
          unfold detect_file_type
          rw [if_pos hpk, if_neg (by rw [hm]; simp)]
        have hnm : ¬ (xlMarker <:+: content.take 50 ∨ contentTypesMarker <:+: content.take 50) := by
          rcases Bool.or_eq_false_iff.mp hm with ⟨ha, hb⟩
          intro hcon
          rcases hcon with hcon | hcon
          · have hx := (listContainsSub_iff xlMarker (content.take 50)).mpr hcon
            rw [ha] at hx
            exact Bool.false_ne_true hx
          · have hx := (listContainsSub_iff contentTypesMarker (content.take 50)).mpr hcon
            rw [hb] at hx
            exact Bool.false_ne_true hx
        exact ⟨⟨fun hda => absurd (hd.symm.trans hda) (by decide),
            fun hcc => absurd hcc.2 hnm⟩,
          fun _ _ => hd, fun hno _ => absurd hpk2 hno⟩
  · have hpk2 : content.take 2 ≠ pkSig := by rw [← h2]; exact hpk
    have hd : detect_file_type probe content
        = (if (content.take 8).take 3 = utf8Bom then "csv"
           else if (content.take 8).take 2 = utf16LeBom ∨ (content.take 8).take 2 = utf16BeBom
             then "csv"
           else if probe content then "csv" else "unknown") := by
      unfold detect_file_type
      rw [if_neg hpk]
    refine ⟨⟨?_, fun hcc => absurd hcc.1 hpk2⟩, fun hcp _ => absurd hcp hpk2, ?_⟩
    · intro hda
      rw [hd] at hda
      by_cases hb : (content.take 8).take 3 = utf8Bom
      · rw [if_pos hb] at hda
        exact absurd hda (by decide)
      · rw [if_neg hb] at hda
        by_cases hb2 : ((content.take 8).take 2 = utf16LeBom ∨ (content.take 8).take 2 = utf16BeBom)
        · rw [if_pos hb2] at hda
          exact absurd hda (by decide)
        · rw [if_neg hb2] at hda
          cases hp : probe content with
          | true =>
              rw [if_pos hp] at hda
              exact absurd hda (by decide)
          | false =>
              rw [if_neg (by simp [hp])] at hda
              exact absurd hda (by decide)
    · intro _ hbom
      rw [hd]
      rcases hbom with hb | hb | hb
      · rw [if_pos (by rw [h3]; exact hb)]
      · by_cases hb1 : (content.take 8).take 3 = utf8Bom
        · rw [if_pos hb1]
        · rw [if_neg hb1, if_pos (Or.inl (by rw [h2]; exact hb))]
      · by_cases hb1 : (content.take 8).take 3 = utf8Bom
        · rw [if_pos hb1]
        · rw [if_neg hb1, if_pos (Or.inr (by rw [h2]; exact hb))]

/-- Bytes of a minimal spreadsheet container head: the ZIP signature
immediately followed by the xl/ marker. -/
def pkXlBytes : List Nat := pkSig ++ xlMarker

/-- C8 witness: the excel classification at a concrete byte head. -/
theorem C8_file_type_detection_witness :
    detect_file_type (fun _ => false) pkXlBytes = "excel" :=
  ((C8_file_type_detection (fun _ => false) pkXlBytes).1).mpr
    ⟨by decide, Or.inl ⟨pkSig, [], by decide⟩⟩

/-! ## Report pipeline column transformations (claim C9)

parul_weekly.py derives three columns (Portal Status, Attempt Status,
Category) and then reorders so that the key columns come first;
performance.py derives a single Category column and inserts it right
after the resolved percentage column.  Both are modelled at the level of
the header list. -/

/-- Python str.rfind of a needle inside a haystack of characters: the
greatest start index of an occurrence, none when absent. -/
def rfindSub (needle hay : List Char) : Option Nat :=
  (List.range (hay.length + 1)).reverse.find? (fun i => needle.isPrefixOf (hay.drop i))

/-- Base prefix derivation of parul_weekly.py: the slice of the
max-score column before the LAST occurrence of the phrase, trimmed; with
the phrase absent Python rfind yields -1 and the slice drops the last
character. -/
def maxScorePfx (maxCol : String) : String :=
  match rfindSub "max score".toList (pyLower maxCol).toList with
  | some r => pyStrip ((maxCol.toList.take r).asString)
  | none => pyStrip ((maxCol.toList.take (maxCol.toList.length - 1)).asString)

/-- Dataframe column assignment: appended at the end when fresh, kept in
place when the name already exists. -/
def pyAssign (cols : List String) (c : String) : List String :=
  if cols.contains c then cols else cols ++ [c]

/-- The reordering step of the weekly pipeline: key columns present in
the table first, remaining columns after, in their existing order. -/
def overallReorder (cols : List String) (ts ms ss tp : String) : List String :=
  ([ts, "Portal Status", "Attempt Status", ms, ss, tp, "Category"].filter
      (fun c => (pyAssign (pyAssign (pyAssign cols "Portal Status") "Attempt Status")
          "Category").contains c))
    ++ (pyAssign (pyAssign (pyAssign cols "Portal Status") "Attempt Status") "Category").filter
        (fun c => !(([ts, "Portal Status", "Attempt Status", ms, ss, tp, "Category"].filter
          (fun c2 => (pyAssign (pyAssign (pyAssign cols "Portal Status") "Attempt Status")
              "Category").contains c2)).contains c))

/-- Embedding of the weekly pipeline column transformation: resolve the
required roles, assign the three derived columns, and reorder. -/
def process_overall_columns (cols : List String) : Option (List String) :=
  (get_column cols ["name"]).bind (fun _ =>
  (get_column cols ["test", "status"]).bind (fun ts =>
  (get_column cols ["test", "duration"]).bind (fun _ =>
  (get_column cols ["max", "score"]).bind (fun ms =>
  (find_related_column cols (maxScorePfx ms) "student score").bind (fun ss =>
  (find_related_column cols (maxScorePfx ms) "total percentage").bind (fun tp =>
  some (overallReorder cols ts ms ss tp)))))))

/-- Embedding of the performance pipeline column transformation: the
Category column is inserted right after the resolved percentage
column. -/
def performance_report_columns (cols : List String) : Option (List String) :=
  match performanceStatusIdx cols with
  | none => none
  | some _ =>
      match performancePctIdx cols with
      | none => none
      | some pIdx => some (cols.take (pIdx + 1) ++ "Category" :: cols.drop (pIdx + 1))

lemma relatedScan_mem (baseL suffixL : String) {l cands : List String} {c : String}
    (h : relatedScan baseL suffixL l cands = some c) : c ∈ l ∨ c ∈ cands := by
  rw [relatedScan_eq] at h
  cases hf : l.find? (relTierLeadEq baseL suffixL) with
  | some col =>
      rw [hf] at h
      obtain rfl : col = c := by simpa using h
      exact Or.inl (List.mem_of_find?_eq_some hf)
  | none =>
      rw [hf] at h
      have hmem : c ∈ cands ++ l.filter (relTierCand baseL suffixL) := by
        cases hl : cands ++ l.filter (relTierCand baseL suffixL) with
        | nil => rw [hl] at h; simp at h
        | cons a t =>
            rw [hl] at h
            have ha : a = c := by simpa using h
            rw [← ha]
            exact List.mem_cons_self a t
      rcases List.mem_append.mp hmem with hc | hc
      · exact Or.inr hc
      · exact Or.inl (List.mem_filter.mp hc).1

lemma find_related_column_mem {cols : List String} {b s c : String}
    (h : find_related_column cols b s = some c) : c ∈ cols := by
  unfold find_related_column at h
  cases hf : cols.find? (tierExactCond b s) with
  | some col =>
      rw [hf] at h
      obtain rfl : col = c := by simpa using h
      exact List.mem_of_find?_eq_some hf
  | none =>
      rw [hf] at h
      rcases relatedScan_mem _ _ h with hc | hc
      · exact hc
      · simp at hc

lemma pyAssign_fresh {cols : List String} {c : String} (h : c ∉ cols) :
    pyAssign cols c = cols ++ [c] := by
  unfold pyAssign
  rw [if_neg (fun hcon => h (List.elem_iff.mp hcon))]

lemma filter_partition_perm (o base : List String) (ho : o.Nodup) (hb : base.Nodup)
    (hsub : ∀ x ∈ o, x ∈ base) :
    List.Perm (o ++ base.filter (fun c => !(o.contains c))) base := by
  rw [List.perm_iff_count]
  intro a
  rw [List.count_append]
  by_cases hA : a ∈ o
  · have h1 : o.count a = 1 := List.count_eq_one_of_mem ho hA
    have h2 : (base.filter (fun c => !(o.contains c))).count a = 0 := by
      apply List.count_eq_zero_of_not_mem
      intro hcon
      have hp := List.of_mem_filter hcon
      rw [Bool.not_eq_true'] at hp
      have hc : List.elem a o = false := hp
      have hm := List.elem_iff.mpr hA
      rw [hc] at hm
      exact Bool.false_ne_true hm
    have h3 : base.count a = 1 := List.count_eq_one_of_mem hb (hsub a hA)
    omega
  · have h1 : o.count a = 0 := List.count_eq_zero_of_not_mem hA
    have hcf : o.contains a = false := by
      rw [Bool.eq_false_iff]
      intro hx
      exact hA (List.elem_iff.mp hx)
    have h2 : (base.filter (fun c => !(o.contains c))).count a = base.count a := by
      apply List.count_filter
      show (!(o.contains a)) = true
      rw [hcf]
      rfl
    omega

/-- C9: the claim that every pipeline only APPENDS a single derived
column fails twice.  The weekly pipeline on a typical header adds three
derived columns (Portal Status, Attempt Status, Category) and reorders
the existing columns so that the key columns come first: the output has
8 + 3 = 11 columns, not 8 + 1, and starts with Test Status instead of
Name.  The performance pipeline adds only one Category column but
INSERTS it right after the percentage column rather than appending it:
on a header where the percentage column is not last, the output differs
from the input with Category appended. -/
theorem C9_frame_counterexample :
    process_overall_columns ["Name", "Email", "Department", "Test Status", "Test Duration",
        "Max Score", "Student Score", "Total Percentage"]
      = some ["Test Status", "Portal Status", "Attempt Status", "Max Score", "Student Score",
          "Total Percentage", "Category", "Name", "Email", "Department", "Test Duration"]
    ∧ (["Test Status", "Portal Status", "Attempt Status", "Max Score", "Student Score",
          "Total Percentage", "Category", "Name", "Email", "Department",
          "Test Duration"] : List String).length
        ≠ (["Name", "Email", "Department", "Test Status", "Test Duration",
            "Max Score", "Student Score", "Total Percentage"] : List String).length + 1
    ∧ performance_report_columns ["Test Status", "Total Percentage", "Remarks"]
        = some ["Test Status", "Total Percentage", "Category", "Remarks"]
    ∧ (["Test Status", "Total Percentage", "Category", "Remarks"] : List String)
        ≠ ["Test Status", "Total Percentage", "Remarks"] ++ ["Category"] := by
  refine ⟨by decide, by decide, by decide, by decide⟩

/-- C9 amended: (i) the performance pipeline adds exactly one derived
Category column, inserted right after the resolved percentage column,
keeping all existing columns in their original order; (ii) the weekly
pipeline adds exactly three derived columns (Portal Status, Attempt
Status, Category): when those names are fresh and the resolved key
columns are distinct existing columns, the output columns are a
permutation of the input columns plus the three derived ones (the key
columns are moved to the front); (iii) every successful run of the
weekly pipeline is of that reordered form with resolved key columns
taken from the input header. -/
theorem C9_frame_amended :
    (∀ (cols out : List String), performance_report_columns cols = some out →
        ∃ n, out = cols.take n ++ "Category" :: cols.drop n)
    ∧ (∀ (cols : List String) (ts ms ss tp : String),
        "Portal Status" ∉ cols → "Attempt Status" ∉ cols → "Category" ∉ cols →
        cols.Nodup → ([ts, ms, ss, tp] : List String).Nodup →
        ts ∈ cols → ms ∈ cols → ss ∈ cols → tp ∈ cols →
        List.Perm (overallReorder cols ts ms ss tp)
          (cols ++ ["Portal Status", "Attempt Status", "Category"]))
    ∧ (∀ (cols out : List String), process_overall_columns cols = some out →
        ∃ ts ms ss tp, ts ∈ cols ∧ ms ∈ cols ∧ ss ∈ cols ∧ tp ∈ cols ∧
          out = overallReorder cols ts ms ss tp) := by
  refine ⟨?_, ?_, ?_⟩
  · intro cols out hout
    unfold performance_report_columns at hout
    cases hs : performanceStatusIdx cols with
    | none => rw [hs] at hout; exact Option.noConfusion hout
    | some s =>
        rw [hs] at hout
        cases hp : performancePctIdx cols with
        | none => rw [hp] at hout; exact Option.noConfusion hout
        | some p =>
            rw [hp] at hout
            exact ⟨p + 1, (Option.some.inj hout).symm⟩
  · intro cols ts ms ss tp hPS hAS hCat hnodup hdist hts hms hss htp
    have e1 : ts ≠ "Portal Status" := fun h => hPS (h ▸ hts)
    have e2 : ts ≠ "Attempt Status" := fun h => hAS (h ▸ hts)
    have e3 : ts ≠ "Category" := fun h => hCat (h ▸ hts)
    have e4 : ms ≠ "Portal Status" := fun h => hPS (h ▸ hms)
    have e5 : ms ≠ "Attempt Status" := fun h => hAS (h ▸ hms)
    have e6 : ms ≠ "Category" := fun h => hCat (h ▸ hms)
    have e7 : ss ≠ "Portal Status" := fun h => hPS (h ▸ hss)
    have e8 : ss ≠ "Attempt Status" := fun h => hAS (h ▸ hss)
    have e9 : ss ≠ "Category" := fun h => hCat (h ▸ hss)
    have e10 : tp ≠ "Portal Status" := fun h => hPS (h ▸ htp)
    have e11 : tp ≠ "Attempt Status" := fun h => hAS (h ▸ htp)
    have e12 : tp ≠ "Category" := fun h => hCat (h ▸ htp)
    have hd1 := List.nodup_cons.mp hdist
    have hd2 := List.nodup_cons.mp hd1.2
    have hd3 := List.nodup_cons.mp hd2.2
    have d1 : ts ≠ ms := fun h => hd1.1 (by rw [h]; simp)
    have d2 : ts ≠ ss := fun h => hd1.1 (by rw [h]; simp)
    have d3 : ts ≠ tp := fun h => hd1.1 (by rw [h]; simp)
    have d4 : ms ≠ ss := fun h => hd2.1 (by rw [h]; simp)
    have d5 : ms ≠ tp := fun h => hd2.1 (by rw [h]; simp)
    have d6 : ss ≠ tp := fun h => hd3.1 (by rw [h]; simp)
    have hfull : pyAssign (pyAssign (pyAssign cols "Portal Status") "Attempt Status") "Category"
        = cols ++ ["Portal Status", "Attempt Status", "Category"] := by
      have h2 : "Attempt Status" ∉ cols ++ ["Portal Status"] := by
        intro hmem
        rcases List.mem_append.mp hmem with hmem | hmem
        · exact hAS hmem
        · simp at hmem
      have h3 : "Category" ∉ (cols ++ ["Portal Status"]) ++ ["Attempt Status"] := by
        intro hmem
        rcases List.mem_append.mp hmem with hmem | hmem
        · rcases List.mem_append.mp hmem with hmem | hmem
          · exact hCat hmem
          · simp at hmem
        · simp at hmem
      rw [pyAssign_fresh hPS, pyAssign_fresh h2, pyAssign_fresh h3]
      simp [List.append_assoc]
    unfold overallReorder
    rw [hfull]
    apply filter_partition_perm
    · apply List.Nodup.filter
      refine List.nodup_cons.mpr ⟨?_, List.nodup_cons.mpr ⟨?_, List.nodup_cons.mpr ⟨?_,
        List.nodup_cons.mpr ⟨?_, List.nodup_cons.mpr ⟨?_, List.nodup_cons.mpr ⟨?_,
          List.nodup_singleton _⟩⟩⟩⟩⟩⟩
      · simp only [List.mem_cons, List.not_mem_nil, or_false, not_or]
        exact ⟨e1, e2, d1, d2, d3, e3⟩
      · simp only [List.mem_cons, List.not_mem_nil, or_false, not_or]
        exact ⟨by decide, Ne.symm e4, Ne.symm e7, Ne.symm e10, by decide⟩
      · simp only [List.mem_cons, List.not_mem_nil, or_false, not_or]
        exact ⟨Ne.symm e5, Ne.symm e8, Ne.symm e11, by decide⟩
      · simp only [List.mem_cons, List.not_mem_nil, or_false, not_or]
        exact ⟨d4, d5, e6⟩
      · simp only [List.mem_cons, List.not_mem_nil, or_false, not_or]
        exact ⟨d6, e9⟩
      · simp only [List.mem_cons, List.not_mem_nil, or_false, not_or]
        exact e12
    · rw [List.nodup_append]
      refine ⟨hnodup, by decide, ?_⟩
      intro x hx hx2
      rcases (by simpa using hx2 :
          x = "Portal Status" ∨ x = "Attempt Status" ∨ x = "Category") with rfl | rfl | rfl
      · exact hPS hx
      · exact hAS hx
      · exact hCat hx
    · intro x hx
      exact List.elem_iff.mp (List.mem_filter.mp hx).2
  · intro cols out hout
    unfold process_overall_columns at hout
    cases h1 : get_column cols ["name"] with
    | none =>
        simp only [h1, Option.none_bind] at hout
        exact Option.noConfusion hout
    | some nm =>
      cases h2 : get_column cols ["test", "status"] with
      | none =>
          simp only [h1, h2, Option.some_bind, Option.none_bind] at hout
          exact Option.noConfusion hout
      | some ts =>
        cases h3 : get_column cols ["test", "duration"] with
        | none =>
            simp only [h1, h2, h3, Option.some_bind, Option.none_bind] at hout
            exact Option.noConfusion hout
        | some dur =>
          cases h4 : get_column cols ["max", "score"] with
          | none =>
              simp only [h1, h2, h3, h4, Option.some_bind, Option.none_bind] at hout
              exact Option.noConfusion hout
          | some ms =>
            cases h5 : find_related_column cols (maxScorePfx ms) "student score" with
            | none =>
                simp only [h1, h2, h3, h4, h5, Option.some_bind, Option.none_bind] at hout
                exact Option.noConfusion hout
            | some ss =>
              cases h6 : find_related_column cols (maxScorePfx ms) "total percentage" with
              | none =>
                  simp only [h1, h2, h3, h4, h5, h6, Option.some_bind, Option.none_bind] at hout
                  exact Option.noConfusion hout
              | some tp =>
                  simp only [h1, h2, h3, h4, h5, h6, Option.some_bind] at hout
                  exact ⟨ts, ms, ss, tp, List.mem_of_find?_eq_some h2,
                    List.mem_of_find?_eq_some h4, find_related_column_mem h5,
                    find_related_column_mem h6, (Option.some.inj hout).symm⟩

/-- Closed instance of C9 amended, part (ii), at the counterexample
header with the concretely resolved key columns. -/
theorem C9_frame_amended_witness :
    List.Perm
      (overallReorder ["Name", "Email", "Department", "Test Status", "Test Duration",
          "Max Score", "Student Score", "Total Percentage"]
        "Test Status" "Max Score" "Student Score" "Total Percentage")
      (["Name", "Email", "Department", "Test Status", "Test Duration",
          "Max Score", "Student Score", "Total Percentage"]
        ++ ["Portal Status", "Attempt Status", "Category"]) :=
  C9_frame_amended.2.1 _ "Test Status" "Max Score" "Student Score" "Total Percentage"
    (by decide) (by decide) (by decide) (by decide) (by decide)
    (by decide) (by decide) (by decide) (by decide)
